import Mathlib

/-!
Verification development for the UPI fraud-detection service.

The definitions below are a shallow embedding of the Python sources:
`backend/server.py` (transaction endpoints, auto-refund sweep),
`app/main.py` (admin override), `app/feature_engine.py`,
`app/trust_engine.py`, `app/drift_detector.py`, `app/risk_buffer.py`.
Floats are modelled as rationals (reals where the source applies `math.log`),
the SQL tables as lists, Redis as explicit state records, raised exceptions
as `Option`/`Except`.
-/

namespace FdtUpi

/-- `action` column values (server.py). -/
inductive Action
  | ALLOW
  | DELAY
  | BLOCK
deriving DecidableEq, Repr

/-- `db_status` column values (server.py). -/
inductive DbStatus
  | success
  | pending
  | blocked
  | cancelled
  | confirmed
  | autoRefunded
deriving DecidableEq, Repr

/-- `transaction_ledger.operation` values. -/
inductive LedgerOp
  | DEBIT
  | CREDIT
  | REFUND
deriving DecidableEq, Repr

/-- Action modifier returned by `app/risk_buffer.py::update_risk_buffer`. -/
inductive BufferAction
  | NONE
  | ESCALATE
  | BLOCK
deriving DecidableEq, Repr

/-- A row of `transaction_ledger` (tx_id, operation, user_id, amount, remarks). -/
structure LedgerEntry where
  txId : String
  op : LedgerOp
  userId : String
  amount : ℚ
  remarks : String
deriving DecidableEq, Repr

/-- A row of `transactions` (the columns the lifecycle touches). -/
structure Txn where
  txId : String
  userId : String
  amount : ℚ
  recipientVpa : String
  receiverUserId : Option String
  action : Action
  dbStatus : DbStatus
  amountDeductedAt : Option ℚ
  amountCreditedAt : Option ℚ
  createdAt : ℚ
deriving DecidableEq, Repr

/-- A row of `fraud_alerts`. -/
structure FraudAlert where
  txId : String
  userId : String
  alertType : Action
  userDecision : Option String
  resolvedAt : Option ℚ
deriving DecidableEq, Repr

/-- A row of `admin_logs` (app/main.py::db_add_admin_log). -/
structure AdminLog where
  txId : String
  userId : String
  action : String
  adminUsername : String
  sourceIp : String
deriving DecidableEq, Repr

/-- A websocket event sent through `ws_manager`. -/
structure Event where
  etype : String
  txId : String
  amount : ℚ
deriving DecidableEq, Repr

/-- The Redis keys the feature engine and the create endpoint share:
`user:{uid}:recipients` (set of pairs), the velocity timestamp zsets
(`user:{uid}:timestamps` / `vel_1m` / `vel_5m`, which hold the same scores and
are modelled as one list of (user, ts)), and `user:{uid}:amounts`
((user, amount, score)). -/
structure RedisState where
  recipients : List (String × String)
  timestamps : List (String × ℚ)
  amounts : List (String × ℚ × ℚ)
deriving DecidableEq, Repr

/-- The persistent state of the service: the SQL tables plus Redis. -/
structure ServerState where
  transactions : List Txn
  ledger : List LedgerEntry
  balances : String → ℚ
  alerts : List FraudAlert
  adminLogs : List AdminLog
  events : List Event
  redis : RedisState

/-- server.py:1652-1662 — decide action and db_status from the risk-buffer
override and the post-signal risk score against the (dynamic) thresholds. -/
def decideAction (bufferAction : BufferAction) (riskScore delayThreshold blockThreshold : ℚ) :
    Action × DbStatus :=
  if bufferAction = BufferAction.BLOCK ∨ blockThreshold ≤ riskScore then
    (Action.BLOCK, DbStatus.blocked)
  else if bufferAction = BufferAction.ESCALATE ∨ delayThreshold ≤ riskScore then
    (Action.DELAY, DbStatus.pending)
  else
    (Action.ALLOW, DbStatus.success)

/-- SADD on the known-recipient set `user:{uid}:recipients`. -/
def saddRecipient (l : List (String × String)) (u v : String) : List (String × String) :=
  if (u, v) ∈ l then l else (u, v) :: l

/-- The inputs of `create_transaction` after scoring: the allocated id, the
caller, the resolved receiver, and the outputs of the ML pipeline (risk score
after trust/graph blending, risk-buffer override, dynamic thresholds). -/
structure CreateInput where
  txId : String
  userId : String
  amount : ℚ
  recipientVpa : String
  receiverUserId : Option String
  riskScore : ℚ
  bufferAction : BufferAction
  delayThreshold : ℚ
  blockThreshold : ℚ
deriving DecidableEq, Repr

/-- server.py:1652-1789 — insert the transaction; on ALLOW track the recipient,
write the DEBIT row and, when the receiver is registered, credit them, write
the CREDIT row and stamp `amount_credited_at`; on DELAY/BLOCK insert a fraud
alert. -/
def createTransaction (now : ℚ) (inp : CreateInput) (s : ServerState) : ServerState :=
  let dec := decideAction inp.bufferAction inp.riskScore inp.delayThreshold inp.blockThreshold
  let deductedAt : Option ℚ := if dec.1 = Action.ALLOW then some now else none
  let tx0 : Txn :=
    { txId := inp.txId, userId := inp.userId, amount := inp.amount,
      recipientVpa := inp.recipientVpa, receiverUserId := inp.receiverUserId,
      action := dec.1, dbStatus := dec.2,
      amountDeductedAt := deductedAt, amountCreditedAt := none, createdAt := now }
  if dec.1 = Action.ALLOW then
    let debit : LedgerEntry :=
      ⟨inp.txId, LedgerOp.DEBIT, inp.userId, inp.amount, "Send to " ++ inp.recipientVpa⟩
    match inp.receiverUserId with
    | some rid =>
        { s with
          transactions := s.transactions ++ [{ tx0 with amountCreditedAt := some now }],
          ledger := s.ledger ++ [debit,
            ⟨inp.txId, LedgerOp.CREDIT, rid, inp.amount, "Credit from " ++ inp.userId⟩],
          balances := fun u => if u = rid then s.balances u + inp.amount else s.balances u,
          redis := { s.redis with
            recipients := saddRecipient s.redis.recipients inp.userId inp.recipientVpa } }
    | none =>
        { s with
          transactions := s.transactions ++ [tx0],
          ledger := s.ledger ++ [debit],
          redis := { s.redis with
            recipients := saddRecipient s.redis.recipients inp.userId inp.recipientVpa } }
  else
    { s with
      transactions := s.transactions ++ [tx0],
      alerts := s.alerts ++ [⟨inp.txId, inp.userId, dec.1, none, none⟩] }

/-- The row `create_transaction` inserts (before any post-insert UPDATE):
spelled out so theorems can name it explicitly. -/
def insertedTxn (now : ℚ) (inp : CreateInput) : Txn :=
  let dec := decideAction inp.bufferAction inp.riskScore inp.delayThreshold inp.blockThreshold
  { txId := inp.txId, userId := inp.userId, amount := inp.amount,
    recipientVpa := inp.recipientVpa, receiverUserId := inp.receiverUserId,
    action := dec.1, dbStatus := dec.2,
    amountDeductedAt := if dec.1 = Action.ALLOW then some now else none,
    amountCreditedAt :=
      if dec.1 = Action.ALLOW ∧ inp.receiverUserId ≠ none then some now else none,
    createdAt := now }

/-- Errors raised by the user-facing lifecycle endpoints (HTTPException 404 /
400 "not pending" / 400 "only delayed transactions can be confirmed"). -/
inductive ApiErr
  | notFound
  | notPending
  | notDelayed
deriving DecidableEq, Repr

/-- server.py:1867-1875 — fetch the caller's transaction by id. -/
def findTxn (l : List Txn) (txId userId : String) : Option Txn :=
  l.find? fun t => decide (t.txId = txId ∧ t.userId = userId)

/-- server.py:2197-2204 — fetch the caller's transaction that is still pending. -/
def findPendingTxn (l : List Txn) (txId userId : String) : Option Txn :=
  l.find? fun t => decide (t.txId = txId ∧ t.userId = userId ∧ t.dbStatus = DbStatus.pending)

/-- server.py:1957-1964 — `UPDATE fraud_alerts SET user_decision, resolved_at
WHERE tx_id = %s`. -/
def resolveAlerts (alerts : List FraudAlert) (txId decision : String) (now : ℚ) :
    List FraudAlert :=
  alerts.map fun a =>
    if a.txId = txId then { a with userDecision := some decision, resolvedAt := some now } else a

/-- server.py:1859-1981 — `handle_user_decision`: the sender confirms or
cancels a pending transaction.  `confirm` requires action DELAY, writes the
DEBIT row when funds were not deducted yet, credits a registered receiver
(balance + CREDIT row), and sets `action = ALLOW`, `db_status = success`,
`amount_deducted_at = COALESCE(old, now)`, `amount_credited_at = now`.  Any
other decision cancels: refund (balance + REFUND row) iff funds were deducted,
`action = BLOCK`, `db_status = cancelled`.  Both resolve the fraud alert. -/
def handleUserDecision (now : ℚ) (txId userId decision : String) (s : ServerState) :
    Except ApiErr ServerState :=
  match findTxn s.transactions txId userId with
  | none => .error .notFound
  | some tx =>
    if tx.dbStatus ≠ DbStatus.pending then .error .notPending
    else if decision = "confirm" then
      if tx.action ≠ Action.DELAY then .error .notDelayed
      else
        .ok { s with
          ledger := s.ledger ++
            (if tx.amountDeductedAt = none then
              [⟨txId, LedgerOp.DEBIT, userId, tx.amount, "Confirm delayed transaction"⟩]
             else []) ++
            (match tx.receiverUserId with
             | some rid => [⟨txId, LedgerOp.CREDIT, rid, tx.amount, "Credit from " ++ userId⟩]
             | none => []),
          balances :=
            (match tx.receiverUserId with
             | some rid => fun u => if u = rid then s.balances u + tx.amount else s.balances u
             | none => s.balances),
          transactions := s.transactions.map fun t =>
            if t.txId = txId then
              { t with action := Action.ALLOW, dbStatus := DbStatus.success,
                       amountDeductedAt := some (t.amountDeductedAt.getD now),
                       amountCreditedAt := some now }
            else t,
          alerts := resolveAlerts s.alerts txId decision now }
    else
      .ok { s with
        ledger := s.ledger ++
          (if tx.amountDeductedAt ≠ none then
            [⟨txId, LedgerOp.REFUND, userId, tx.amount, "Cancelled delayed transaction"⟩]
           else []),
        balances :=
          (if tx.amountDeductedAt ≠ none then
            fun u => if u = userId then s.balances u + tx.amount else s.balances u
           else s.balances),
        transactions := s.transactions.map fun t =>
          if t.txId = txId then
            { t with action := Action.BLOCK, dbStatus := DbStatus.cancelled }
          else t,
        alerts := resolveAlerts s.alerts txId decision now }

/-- server.py:2187-2316 — `confirm_transaction` endpoint: like the confirm
branch above but sets `db_status = confirmed`, emits websocket events, and
does NOT touch `fraud_alerts`. -/
def confirmTransaction (now : ℚ) (txId userId : String) (s : ServerState) :
    Except ApiErr ServerState :=
  match findPendingTxn s.transactions txId userId with
  | none => .error .notFound
  | some tx =>
    if tx.action ≠ Action.DELAY then .error .notDelayed
    else
      .ok { s with
        ledger := s.ledger ++
          (if tx.amountDeductedAt = none then
            [⟨txId, LedgerOp.DEBIT, userId, tx.amount, "Confirm delayed transaction"⟩]
           else []) ++
          (match tx.receiverUserId with
           | some rid => [⟨txId, LedgerOp.CREDIT, rid, tx.amount, "Credit from " ++ userId⟩]
           | none => []),
        balances :=
          (match tx.receiverUserId with
           | some rid => fun u => if u = rid then s.balances u + tx.amount else s.balances u
           | none => s.balances),
        transactions := s.transactions.map fun t =>
          if t.txId = txId then
            { t with dbStatus := DbStatus.confirmed, action := Action.ALLOW,
                     amountDeductedAt := some (t.amountDeductedAt.getD now),
                     amountCreditedAt := some now }
          else t,
        events := s.events ++ [⟨"transaction_confirmed", txId, tx.amount⟩] ++
          (match tx.receiverUserId with
           | some _ => [⟨"transaction_credited", txId, tx.amount⟩]
           | none => []) }

/-- server.py:390-401 — the sweep's WHERE clause: action DELAY, db_status
pending, created_at strictly older than five minutes (300 s). -/
def expiredDelay (now : ℚ) (t : Txn) : Bool :=
  decide (t.action = Action.DELAY ∧ t.dbStatus = DbStatus.pending ∧ t.createdAt < now - 300)

/-- server.py:406-420 — the REFUND row written for an expired transaction,
only when funds had been deducted. -/
def refundRows (t : Txn) : List LedgerEntry :=
  if t.amountDeductedAt ≠ none then
    [⟨t.txId, LedgerOp.REFUND, t.userId, t.amount, "Auto-refund after 5 minute timeout"⟩]
  else []

/-- server.py:381-461 — `auto_refund_delayed_transactions`: one sweep.  Every
expired pending DELAY transaction is refunded (balance + REFUND row, iff
deducted), moved to `db_status = auto-refunded` / `action = BLOCK`, and a
`transaction_auto_refunded` event is emitted. -/
def autoRefund (now : ℚ) (s : ServerState) : ServerState :=
  let expired := s.transactions.filter (expiredDelay now)
  { s with
    transactions := s.transactions.map fun t =>
      if expiredDelay now t then
        { t with dbStatus := DbStatus.autoRefunded, action := Action.BLOCK }
      else t,
    ledger := s.ledger ++ (expired.map refundRows).flatten,
    balances := expired.foldl
      (fun b t =>
        if t.amountDeductedAt ≠ none then
          fun u => if u = t.userId then b u + t.amount else b u
        else b)
      s.balances,
    events := s.events ++ expired.map fun t => ⟨"transaction_auto_refunded", t.txId, t.amount⟩ }

/-- Failures of `POST /admin/action` (app/main.py:1065-1129): 403 for any
requested action other than ALLOW, 404 when the transaction is missing, 400
when its current action is not BLOCK. -/
inductive AdminErr
  | forbiddenAction
  | txNotFound
  | notBlocked
deriving DecidableEq, Repr

/-- Python `str.upper()` restricted to the ASCII data at hand (written over
the character list so that it evaluates structurally). -/
def pyUpper (sx : String) : String := ⟨sx.data.map Char.toUpper⟩

/-- app/main.py `db_get_transaction` — fetch by tx_id. -/
def dbGetTransaction (l : List Txn) (txId : String) : Option Txn :=
  l.find? fun t => decide (t.txId = txId)

/-- app/main.py:1065-1129 — `admin_action`: only `ALLOW` (case-insensitive) is
accepted and only a transaction currently in BLOCK may be unblocked; success
sets `action = ALLOW` (`db_update_action`) and appends an admin log row
(`db_add_admin_log`); nothing touches the ledger or balances. -/
def adminAction (txId requested adminUsername sourceIp : String) (s : ServerState) :
    Except AdminErr ServerState :=
  if pyUpper requested ≠ "ALLOW" then .error .forbiddenAction
  else
    match dbGetTransaction s.transactions txId with
    | none => .error .txNotFound
    | some tx =>
      if tx.action ≠ Action.BLOCK then .error .notBlocked
      else
        .ok { s with
          transactions := s.transactions.map fun t =>
            if t.txId = txId then { t with action := Action.ALLOW } else t,
          adminLogs := s.adminLogs ++ [⟨txId, tx.userId, requested, adminUsername, sourceIp⟩] }

/-- The empty deployment: no rows anywhere, arbitrary opening balances. -/
def initState (bal : String → ℚ) : ServerState :=
  { transactions := [], ledger := [], balances := bal, alerts := [], adminLogs := [],
    events := [], redis := { recipients := [], timestamps := [], amounts := [] } }

/-- States reachable by the lifecycle: creation (with the DB enforcing tx_id
uniqueness), user decision, confirm endpoint, auto-refund sweep, admin
override. -/
inductive Reachable : ServerState → Prop
  | init (bal : String → ℚ) : Reachable (initState bal)
  | create {s : ServerState} (now : ℚ) (inp : CreateInput)
      (hfresh : ∀ t ∈ s.transactions, t.txId ≠ inp.txId) (h : Reachable s) :
      Reachable (createTransaction now inp s)
  | decision {s s' : ServerState} (now : ℚ) (txId userId dec : String) (h : Reachable s)
      (hok : handleUserDecision now txId userId dec s = .ok s') : Reachable s'
  | confirm {s s' : ServerState} (now : ℚ) (txId userId : String) (h : Reachable s)
      (hok : confirmTransaction now txId userId s = .ok s') : Reachable s'
  | sweep {s : ServerState} (now : ℚ) (h : Reachable s) : Reachable (autoRefund now s)
  | admin {s s' : ServerState} (txId req au ip : String) (h : Reachable s)
      (hok : adminAction txId req au ip s = .ok s') : Reachable s'

/-- Raw transaction input to the feature extractor (the `tx` dict of
feature_engine.py), with the `safe_ts` IST datetime already split into its
components and the channel/type strings as sent. -/
structure TxIn where
  userId : String
  amount : ℚ
  recipientVpa : String
  txType : String
  channel : String
  tsHour : ℕ
  tsMonth : ℕ
  tsWeekday : ℕ
  tsEpoch : ℚ
deriving DecidableEq, Repr

/-- `recipient.split("@")[0]` — the local-part of the VPA, i.e. the prefix up
to the first '@' (the whole string when there is none), written over the
character list so that it evaluates structurally. -/
def localPart (vpa : String) : String := ⟨vpa.data.takeWhile fun ch => ch != '@'⟩

/-- Python `str.lower()` on the ASCII data at hand. -/
def pyLower (sx : String) : String := ⟨sx.data.map Char.toLower⟩

/-- `amount % b == 0` for floats holding exact values: `a` is an integral
multiple of `b`. -/
def isMultiple (a b : ℚ) : Bool := (a / b).den == 1

/-- feature_engine.py:201-213 — merchant risk from the local-part of the VPA.
Python indexes `merchant[0]`, which raises IndexError on an empty local-part:
that failure is the `none` case.  `replace("0", "")`/`replace("1", "")` with
an empty replacement delete every occurrence, i.e. filter the characters out. -/
def merchantRiskScore (vpa : String) : Option ℚ :=
  let merchant := localPart vpa
  match merchant.data with
  | [] => none
  | c :: _ =>
      let r1 : ℚ := if c.isDigit then 5/10 else 0
      let r2 : ℚ := if merchant.length < 4 then 3/10 else 0
      let r3 : ℚ :=
        if (merchant.data.filter fun ch => ch != '0').filter (fun ch => ch != '1') = [] then
          2/10
        else 0
      some (min (r1 + r2 + r3) 1)

/-- The formula of spec §4.2 for `merchant_risk_score`, written from the
spec's words (for comparison against the code): +0.5 if the first character
of the local-part is a digit, +0.3 if its length is < 4, +0.2 if it consists
solely of '0' and '1', clamped to 1.0. -/
def merchantRiskSpecFormula (vpa : String) : ℚ :=
  let lp := localPart vpa
  min ((if (lp.data.headD ' ').isDigit then 5/10 else 0) +
       (if lp.length < 4 then 3/10 else 0) +
       (if lp.data.all (fun ch => ch == '0' || ch == '1') then 2/10 else 0)) 1

/-- feature_engine.py:222-237 — `get_feature_names()`, verbatim order. -/
def featureNames : List String :=
  ["amount", "log_amount", "is_round_amount",
   "hour_of_day", "month_of_year", "day_of_week", "is_weekend", "is_night",
   "is_business_hours",
   "tx_count_1h", "tx_count_6h", "tx_count_24h", "tx_count_1min", "tx_count_5min",
   "is_new_recipient", "recipient_tx_count", "is_new_device", "device_count",
   "is_p2m", "is_p2p",
   "amount_mean", "amount_std", "amount_max", "amount_deviation",
   "merchant_risk_score", "is_qr_channel", "is_web_channel"]

/-- Python `max(list)` (the list is non-empty at every call site). -/
def listMax (l : List ℚ) (dflt : ℚ) : ℚ :=
  match l with
  | [] => dflt
  | a :: r => r.foldl max a

/-- feature_engine.py:54-219 — `extract_features` with the rolling store
available.  `L` abstracts `math.log1p` and `SD` abstracts
`statistics.stdev` (transcendental primitives; no claim depends on their
values).  The three velocity zsets carry the same scores, so they are read
from the shared timestamp list with the respective windows.  The result is
the feature dict in Python insertion order plus the updated store; `none`
models the IndexError raised while computing the merchant risk. -/
def extract_features (L : ℚ → ℚ) (SD : List ℚ → ℚ) (rs : RedisState) (tx : TxIn) :
    Option (List (String × ℚ) × RedisState) :=
  let nowTs := tx.tsEpoch
  let amount := tx.amount
  let user := tx.userId
  let tsList := ((user, nowTs) :: rs.timestamps).filter
      fun p => !(p.1 == user) || decide (nowTs - 86400 < p.2)
  let countWin : ℚ → ℚ := fun w =>
      ((tsList.filter fun p => p.1 == user && decide (nowTs - w ≤ p.2 ∧ p.2 ≤ nowTs)).length : ℚ)
  let amtList := ((user, amount, nowTs) :: rs.amounts).filter
      fun p => !(p.1 == user) || decide (nowTs - 604800 < p.2.2)
  let recent := (amtList.filter
      fun p => p.1 == user && decide (nowTs - 604800 ≤ p.2.2 ∧ p.2.2 ≤ nowTs)).map
      fun p => p.2.1
  let amountMean := if recent ≠ [] then recent.sum / (recent.length : ℚ) else amount
  let amountStd := if recent ≠ [] then (if 1 < recent.length then SD recent else 0) else 0
  let amountMax := if recent ≠ [] then listMax recent 0 else amount
  let amountDeviation := if recent ≠ [] then |amount - amountMean| / (amountStd + 1) else 0
  let isNewRec : ℚ := if (user, tx.recipientVpa) ∈ rs.recipients then 0 else 1
  let recCount : ℚ := ((rs.recipients.filter fun p => p.1 == user).length : ℚ)
  match merchantRiskScore tx.recipientVpa with
  | none => none
  | some mrs =>
    some (
      [("amount", amount),
       ("log_amount", L amount),
       ("is_round_amount", if isMultiple amount 100 || isMultiple amount 500 then 1 else 0),
       ("hour_of_day", (tx.tsHour : ℚ)),
       ("month_of_year", (tx.tsMonth : ℚ)),
       ("day_of_week", (tx.tsWeekday : ℚ)),
       ("is_weekend", if 5 ≤ tx.tsWeekday then 1 else 0),
       ("is_night", if 22 ≤ tx.tsHour ∨ tx.tsHour ≤ 5 then 1 else 0),
       ("is_business_hours", if 9 ≤ tx.tsHour ∧ tx.tsHour ≤ 17 then 1 else 0),
       ("tx_count_1h", countWin 3600),
       ("tx_count_6h", countWin 21600),
       ("tx_count_24h", countWin 86400),
       ("tx_count_1min", countWin 60),
       ("tx_count_5min", countWin 300),
       ("is_new_recipient", isNewRec),
       ("recipient_tx_count", recCount),
       ("is_new_device", 0),
       ("device_count", 1),
       ("is_p2m", if pyUpper tx.txType = "P2M" then 1 else 0),
       ("is_p2p", if pyUpper tx.txType = "P2P" then 1 else 0),
       ("amount_mean", amountMean),
       ("amount_std", amountStd),
       ("amount_max", amountMax),
       ("amount_deviation", amountDeviation),
       ("merchant_risk_score", mrs),
       ("is_qr_channel", if pyLower tx.channel = "qr" then 1 else 0),
       ("is_web_channel", if pyLower tx.channel = "web" then 1 else 0)],
      { rs with timestamps := tsList, amounts := amtList })

/-- feature_engine.py:240-243 — order the feature dict by `featureNames`,
defaulting missing entries to 0; this is the vector the ensemble scorer
(`scoring.py::features_to_vector`) feeds to every predictor. -/
def features_to_vector (f : List (String × ℚ)) : List ℚ :=
  featureNames.map fun n => (f.lookup n).getD 0

/-- `math.log1p` over the reals. -/
noncomputable def log1p (x : ℝ) : ℝ := Real.log (1 + x)

/-- trust_engine.py:103-130 — the pure trust computation on the values read
from the store: frequency/volume/longevity saturations, fraud penalty, the
0.3 new-recipient baseline, and the final clamp. -/
noncomputable def compute_trust_score (txCount : ℕ) (totalAmount daysKnown : ℝ)
    (fraudFlags : ℕ) : ℝ :=
  let freqScore := min 1 (log1p (txCount : ℝ) / log1p 20)
  let volScore := min 1 (log1p totalAmount / log1p 50000)
  let lonScore := min 1 (daysKnown / 90)
  let fraudPenalty := min 1 ((fraudFlags : ℝ) * 0.5)
  let rawTrust := 0.35 * freqScore + 0.25 * volScore + 0.40 * lonScore
  let t1 := max 0 (rawTrust - fraudPenalty)
  let t2 := if txCount = 0 ∧ fraudFlags = 0 then max t1 0.3 else t1
  min 1 (max 0 t2)

/-- drift_detector.py:59 — `eps = 1e-6`. -/
def epsDrift : ℚ := 1 / 1000000

/-- One summand of drift_detector.py:61-64: `(a − e) · ln(a / e)` after both
proportions are clamped up to ε. -/
noncomputable def psiTerm (e a : ℚ) : ℝ :=
  ((max a epsDrift - max e epsDrift : ℚ) : ℝ) *
    Real.log (((max a epsDrift : ℚ) : ℝ) / ((max e epsDrift : ℚ) : ℝ))

/-- drift_detector.py:52-66 — `_calculate_psi` over two proportion lists. -/
noncomputable def calculatePsi (expected actual : List ℚ) : ℝ :=
  ((expected.zip actual).map fun p => psiTerm p.1 p.2).sum

/-- drift_detector.py:74-82 — the bin a value falls into: the first bin whose
upper edge exceeds it, with overflow going to the last bin. -/
def firstBin (edges : List ℚ) (v : ℚ) : ℕ :=
  let nBins := edges.length - 1
  match (List.range nBins).find? fun i => decide (v < edges.getD (i + 1) 0) with
  | some i => i
  | none => nBins - 1

/-- drift_detector.py:69-88 — `_histogram`: proportions per bin, uniform when
no value was counted. -/
def histogram (values edges : List ℚ) : List ℚ :=
  let nBins := edges.length - 1
  let counts := (List.range nBins).map fun i => values.countP fun v => firstBin edges v == i
  let total := counts.sum
  if total = 0 then List.replicate nBins ((1 : ℚ) / (nBins : ℚ))
  else counts.map fun c : ℕ => (c : ℚ) / (total : ℚ)

/-- The ledger rows `create_transaction` appends (DEBIT on ALLOW, plus CREDIT
when the receiver is registered). -/
def createdRows (inp : CreateInput) : List LedgerEntry :=
  if (decideAction inp.bufferAction inp.riskScore inp.delayThreshold inp.blockThreshold).1 =
      Action.ALLOW then
    ⟨inp.txId, LedgerOp.DEBIT, inp.userId, inp.amount, "Send to " ++ inp.recipientVpa⟩ ::
      (match inp.receiverUserId with
       | some rid =>
           [⟨inp.txId, LedgerOp.CREDIT, rid, inp.amount, "Credit from " ++ inp.userId⟩]
       | none => [])
  else []

/-- Drift-counterexample fixtures: ten integer bins and two samples of
1,000,001 values that differ in exactly one observation. -/
def cexEdges : List ℚ := [0, 1, 2, 3, 4, 5, 6, 7, 8, 9, 10]

def cexEvals : List ℚ := List.replicate 1000000 0 ++ [1]

def cexAvals : List ℚ := List.replicate 1000000 0 ++ [2]

/-- The state invariants carried through the lifecycle induction: primary-key
uniqueness of tx_id, every ledger row referencing an existing transaction,
the credit bookkeeping relation, and pending rows having action DELAY. -/
def StateInv (s : ServerState) : Prop :=
  (s.transactions.map Txn.txId).Nodup ∧
  (∀ e ∈ s.ledger, ∃ t ∈ s.transactions, t.txId = e.txId) ∧
  (∀ t ∈ s.transactions,
    (t.receiverUserId ≠ none →
      (t.amountCreditedAt ≠ none ↔
        ∃ e ∈ s.ledger, e.op = LedgerOp.CREDIT ∧ e.txId = t.txId)) ∧
    (t.receiverUserId = none →
      ∀ e ∈ s.ledger, ¬(e.op = LedgerOp.CREDIT ∧ e.txId = t.txId))) ∧
  (∀ t ∈ s.transactions, t.dbStatus = DbStatus.pending → t.action = Action.DELAY)

/-- Fixtures used to instantiate hypothesis-bearing theorems at concrete
inputs: a delayed transaction whose funds were deducted... -/
def cexTxDeducted : Txn :=
  { txId := "T1", userId := "u1", amount := 100, recipientVpa := "r@upi",
    receiverUserId := none, action := Action.DELAY, dbStatus := DbStatus.pending,
    amountDeductedAt := some 0, amountCreditedAt := none, createdAt := 0 }

/-- ... and a one-transaction server state holding it. -/
def cexSweepState : ServerState :=
  { transactions := [cexTxDeducted], ledger := [], balances := fun _ => 0, alerts := [],
    adminLogs := [], events := [], redis := { recipients := [], timestamps := [], amounts := [] } }

/-- A pending DELAY transaction with no deduction and an unregistered
receiver, together with its fraud alert and enclosing state. -/
def cexPendingTx : Txn :=
  { txId := "T2", userId := "u1", amount := 50, recipientVpa := "x@upi",
    receiverUserId := none, action := Action.DELAY, dbStatus := DbStatus.pending,
    amountDeductedAt := none, amountCreditedAt := none, createdAt := 0 }

def cexPendingAlert : FraudAlert :=
  { txId := "T2", userId := "u1", alertType := Action.DELAY, userDecision := none,
    resolvedAt := none }

def cexPendingState : ServerState :=
  { transactions := [cexPendingTx], ledger := [], balances := fun _ => 0,
    alerts := [cexPendingAlert], adminLogs := [], events := [],
    redis := { recipients := [], timestamps := [], amounts := [] } }

/-- A create-input that is decided DELAY (risk 4 between thresholds 3 and 6)
for an unregistered receiver. -/
def cexInpDelay : CreateInput :=
  { txId := "T3", userId := "u1", amount := 40, recipientVpa := "z@upi",
    receiverUserId := none, riskScore := 4, bufferAction := BufferAction.NONE,
    delayThreshold := 3, blockThreshold := 6 }

/-- A create-input that is decided ALLOW (risk 0) for a registered receiver. -/
def cexInpAllow : CreateInput :=
  { txId := "T4", userId := "u1", amount := 25, recipientVpa := "9@upi",
    receiverUserId := some "u2", riskScore := 0, bufferAction := BufferAction.NONE,
    delayThreshold := 3, blockThreshold := 6 }

/-- The state after creating the delayed transaction on an empty deployment. -/
def cexS1 : ServerState := createTransaction 0 cexInpDelay (initState fun _ => 0)

/-- The state after the sender then confirms it through the confirm endpoint. -/
def cexS2 : ServerState := ((confirmTransaction 10 "T3" "u1" cexS1).toOption).getD cexS1

/-- A store with one known recipient, and a transaction to that recipient. -/
def cexRs : RedisState := { recipients := [("u1", "x@upi")], timestamps := [], amounts := [] }

def cexTxIn : TxIn :=
  { userId := "u1", amount := 10, recipientVpa := "x@upi", txType := "P2P",
    channel := "app", tsHour := 10, tsMonth := 1, tsWeekday := 2, tsEpoch := 1000 }

lemma createTransaction_transactions (now : ℚ) (inp : CreateInput) (s : ServerState) :
    (createTransaction now inp s).transactions = s.transactions ++ [insertedTxn now inp] := by
  unfold createTransaction insertedTxn
  rcases h : inp.receiverUserId with _ | rid <;>
    by_cases hA :
      (decideAction inp.bufferAction inp.riskScore inp.delayThreshold inp.blockThreshold).1 =
        Action.ALLOW <;>
    simp [h, hA]

/-- C1: for every transaction submitted through the create-transaction
endpoint, the decided action is BLOCK iff the risk-buffer override is BLOCK
or the post-signal risk score is ≥ the block threshold; otherwise it is DELAY
iff the override is ESCALATE or the score is ≥ the delay threshold; otherwise
it is ALLOW. -/
theorem C1_create_action_rule (now : ℚ) (inp : CreateInput) (s : ServerState) :
    (createTransaction now inp s).transactions = s.transactions ++ [insertedTxn now inp] ∧
    ((insertedTxn now inp).action = Action.BLOCK ↔
      (inp.bufferAction = BufferAction.BLOCK ∨ inp.blockThreshold ≤ inp.riskScore)) ∧
    ((insertedTxn now inp).action ≠ Action.BLOCK →
      ((insertedTxn now inp).action = Action.DELAY ↔
        (inp.bufferAction = BufferAction.ESCALATE ∨ inp.delayThreshold ≤ inp.riskScore))) ∧
    ((insertedTxn now inp).action ≠ Action.BLOCK →
      (insertedTxn now inp).action ≠ Action.DELAY →
      (insertedTxn now inp).action = Action.ALLOW) := by
  refine ⟨createTransaction_transactions now inp s, ?_, ?_, ?_⟩ <;>
    unfold insertedTxn decideAction <;>
    by_cases hB : inp.bufferAction = BufferAction.BLOCK ∨ inp.blockThreshold ≤ inp.riskScore <;>
    by_cases hD :
      inp.bufferAction = BufferAction.ESCALATE ∨ inp.delayThreshold ≤ inp.riskScore <;>
    simp [hB, hD]

/-- C2: one auto-refund sweep moves every pending DELAY transaction created
more than 5 minutes ago to db_status auto-refunded with action BLOCK, appends
a full-amount REFUND for the sender exactly when funds had been deducted,
publishes a transaction_auto_refunded event, and leaves pending transactions
younger than 5 minutes unchanged. -/
theorem C2_auto_refund_sweep (now : ℚ) (s : ServerState) (t : Txn)
    (ht : t ∈ s.transactions) :
    (t.action = Action.DELAY → t.dbStatus = DbStatus.pending → t.createdAt < now - 300 →
      ({ t with dbStatus := DbStatus.autoRefunded, action := Action.BLOCK }
          ∈ (autoRefund now s).transactions ∧
        (t.amountDeductedAt ≠ none →
          (⟨t.txId, LedgerOp.REFUND, t.userId, t.amount,
            "Auto-refund after 5 minute timeout"⟩ : LedgerEntry)
            ∈ (autoRefund now s).ledger.drop s.ledger.length) ∧
        (⟨"transaction_auto_refunded", t.txId, t.amount⟩ : Event)
          ∈ (autoRefund now s).events.drop s.events.length)) ∧
    (∀ e ∈ (autoRefund now s).ledger.drop s.ledger.length,
      ∃ t' ∈ s.transactions, expiredDelay now t' = true ∧ t'.amountDeductedAt ≠ none ∧
        e = ⟨t'.txId, LedgerOp.REFUND, t'.userId, t'.amount,
          "Auto-refund after 5 minute timeout"⟩) ∧
    (t.dbStatus = DbStatus.pending → now - t.createdAt < 300 →
      t ∈ (autoRefund now s).transactions) := by
  unfold autoRefund
  simp only [List.drop_left]
  refine ⟨fun ha hp hc => ?_, fun e he => ?_, fun hp hyoung => ?_⟩
  · have hex : expiredDelay now t = true := by
      unfold expiredDelay; exact decide_eq_true ⟨ha, hp, hc⟩
    refine ⟨?_, fun hd => ?_, ?_⟩
    · exact List.mem_map.mpr ⟨t, ht, by simp [hex]⟩
    · have htf : t ∈ s.transactions.filter (expiredDelay now) :=
        List.mem_filter.mpr ⟨ht, hex⟩
      refine List.mem_flatten.mpr ⟨refundRows t, List.mem_map_of_mem refundRows htf, ?_⟩
      unfold refundRows
      simp [hd]
    · have htf : t ∈ s.transactions.filter (expiredDelay now) :=
        List.mem_filter.mpr ⟨ht, hex⟩
      exact List.mem_map_of_mem _ htf
  · obtain ⟨l, hl, hel⟩ := List.mem_flatten.mp he
    obtain ⟨t', ht', rfl⟩ := List.mem_map.mp hl
    obtain ⟨ht's, hex⟩ := List.mem_filter.mp ht'
    unfold refundRows at hel
    by_cases hd : t'.amountDeductedAt = none
    · simp [hd] at hel
    · refine ⟨t', ht's, hex, hd, ?_⟩
      rw [if_pos hd] at hel
      simpa using hel
  · have hex : expiredDelay now t = false := by
      unfold expiredDelay
      simp only [decide_eq_false_iff_not]
      rintro ⟨-, -, hc⟩
      linarith
    exact List.mem_map.mpr ⟨t, ht, by simp [hex]⟩

/-- Witness for C2 at a concrete state: a deducted pending DELAY transaction
created at 0 is swept at time 301. -/
theorem C2_auto_refund_sweep_witness :
    { cexTxDeducted with dbStatus := DbStatus.autoRefunded, action := Action.BLOCK }
        ∈ (autoRefund 301 cexSweepState).transactions ∧
      (⟨"T1", LedgerOp.REFUND, "u1", 100, "Auto-refund after 5 minute timeout"⟩ : LedgerEntry)
        ∈ (autoRefund 301 cexSweepState).ledger.drop cexSweepState.ledger.length := by
  have h := (C2_auto_refund_sweep 301 cexSweepState cexTxDeducted
      (by simp [cexSweepState])).1 rfl rfl (by norm_num [cexTxDeducted])
  exact ⟨h.1, h.2.1 (by simp [cexTxDeducted])⟩

lemma handleUserDecision_confirm_eq (now : ℚ) (txId userId : String) (s : ServerState)
    (tx : Txn) (hfind : findTxn s.transactions txId userId = some tx)
    (hp : tx.dbStatus = DbStatus.pending) (ha : tx.action = Action.DELAY) :
    handleUserDecision now txId userId "confirm" s = .ok
      { s with
        ledger := s.ledger ++
          (if tx.amountDeductedAt = none then
            [⟨txId, LedgerOp.DEBIT, userId, tx.amount, "Confirm delayed transaction"⟩]
           else []) ++
          (match tx.receiverUserId with
           | some rid => [⟨txId, LedgerOp.CREDIT, rid, tx.amount, "Credit from " ++ userId⟩]
           | none => []),
        balances :=
          (match tx.receiverUserId with
           | some rid => fun u => if u = rid then s.balances u + tx.amount else s.balances u
           | none => s.balances),
        transactions := s.transactions.map fun t =>
          if t.txId = txId then
            { t with action := Action.ALLOW, dbStatus := DbStatus.success,
                     amountDeductedAt := some (t.amountDeductedAt.getD now),
                     amountCreditedAt := some now }
          else t,
        alerts := resolveAlerts s.alerts txId "confirm" now } := by
  unfold handleUserDecision
  rw [hfind]
  simp [hp, ha]

lemma confirmTransaction_eq (now : ℚ) (txId userId : String) (s : ServerState)
    (tx : Txn) (hfind : findPendingTxn s.transactions txId userId = some tx)
    (ha : tx.action = Action.DELAY) :
    confirmTransaction now txId userId s = .ok
      { s with
        ledger := s.ledger ++
          (if tx.amountDeductedAt = none then
            [⟨txId, LedgerOp.DEBIT, userId, tx.amount, "Confirm delayed transaction"⟩]
           else []) ++
          (match tx.receiverUserId with
           | some rid => [⟨txId, LedgerOp.CREDIT, rid, tx.amount, "Credit from " ++ userId⟩]
           | none => []),
        balances :=
          (match tx.receiverUserId with
           | some rid => fun u => if u = rid then s.balances u + tx.amount else s.balances u
           | none => s.balances),
        transactions := s.transactions.map fun t =>
          if t.txId = txId then
            { t with dbStatus := DbStatus.confirmed, action := Action.ALLOW,
                     amountDeductedAt := some (t.amountDeductedAt.getD now),
                     amountCreditedAt := some now }
          else t,
        events := s.events ++ [⟨"transaction_confirmed", txId, tx.amount⟩] ++
          (match tx.receiverUserId with
           | some _ => [⟨"transaction_credited", txId, tx.amount⟩]
           | none => []) } := by
  unfold confirmTransaction
  rw [hfind]
  simp [ha]

/-- C3 counterexample: confirming through the user-decision endpoint leaves
db_status = success (not confirmed), and confirming through the confirm
endpoint leaves the fraud alert unresolved — so no code path realises the
claimed conjunction. -/
theorem C3_confirm_counterexample :
    (handleUserDecision 10 "T2" "u1" "confirm" cexPendingState).map
        (fun s' => s'.transactions.map Txn.dbStatus) = .ok [DbStatus.success] ∧
    DbStatus.success ≠ DbStatus.confirmed ∧
    (confirmTransaction 10 "T2" "u1" cexPendingState).map
        (fun s' => s'.alerts.map FraudAlert.resolvedAt) = .ok [none] := by
  refine ⟨?_, by decide, ?_⟩ <;> rfl

/-- C3 (amended): confirming a pending DELAY transaction through the
user-decision endpoint sets db_status = success (not confirmed) and action =
ALLOW, writes DEBIT iff not yet deducted, credits and CREDITs exactly a
registered receiver, stamps the timestamps and resolves the alert with
'confirm'; the dedicated confirm endpoint behaves the same except db_status =
confirmed and the fraud alert is left untouched. -/
theorem C3_confirm_paths (now : ℚ) (txId userId : String) (s : ServerState) (tx : Txn) :
    (findTxn s.transactions txId userId = some tx → tx.dbStatus = DbStatus.pending →
      tx.action = Action.DELAY →
      ∃ s', handleUserDecision now txId userId "confirm" s = .ok s' ∧
        { tx with action := Action.ALLOW, dbStatus := DbStatus.success,
                  amountDeductedAt := some (tx.amountDeductedAt.getD now),
                  amountCreditedAt := some now } ∈ s'.transactions ∧
        ((⟨txId, LedgerOp.DEBIT, userId, tx.amount, "Confirm delayed transaction"⟩ : LedgerEntry)
            ∈ s'.ledger.drop s.ledger.length ↔ tx.amountDeductedAt = none) ∧
        (∀ rid, tx.receiverUserId = some rid →
          (⟨txId, LedgerOp.CREDIT, rid, tx.amount, "Credit from " ++ userId⟩ : LedgerEntry)
            ∈ s'.ledger.drop s.ledger.length ∧
          ∀ u, s'.balances u = if u = rid then s.balances u + tx.amount else s.balances u) ∧
        (tx.receiverUserId = none →
          (∀ e ∈ s'.ledger.drop s.ledger.length, e.op ≠ LedgerOp.CREDIT) ∧
          ∀ u, s'.balances u = s.balances u) ∧
        (∀ a ∈ s.alerts, a.txId = txId →
          { a with userDecision := some "confirm", resolvedAt := some now } ∈ s'.alerts)) ∧
    (findPendingTxn s.transactions txId userId = some tx → tx.action = Action.DELAY →
      ∃ s', confirmTransaction now txId userId s = .ok s' ∧
        { tx with action := Action.ALLOW, dbStatus := DbStatus.confirmed,
                  amountDeductedAt := some (tx.amountDeductedAt.getD now),
                  amountCreditedAt := some now } ∈ s'.transactions ∧
        ((⟨txId, LedgerOp.DEBIT, userId, tx.amount, "Confirm delayed transaction"⟩ : LedgerEntry)
            ∈ s'.ledger.drop s.ledger.length ↔ tx.amountDeductedAt = none) ∧
        (∀ rid, tx.receiverUserId = some rid →
          (⟨txId, LedgerOp.CREDIT, rid, tx.amount, "Credit from " ++ userId⟩ : LedgerEntry)
            ∈ s'.ledger.drop s.ledger.length ∧
          ∀ u, s'.balances u = if u = rid then s.balances u + tx.amount else s.balances u) ∧
        (tx.receiverUserId = none →
          (∀ e ∈ s'.ledger.drop s.ledger.length, e.op ≠ LedgerOp.CREDIT) ∧
          ∀ u, s'.balances u = s.balances u) ∧
        s'.alerts = s.alerts) := by
  constructor
  · intro hfind hp ha
    have htx : tx ∈ s.transactions := List.mem_of_find?_eq_some hfind
    have hpred := List.find?_some hfind
    have hids : tx.txId = txId ∧ tx.userId = userId := of_decide_eq_true hpred
    refine ⟨_, handleUserDecision_confirm_eq now txId userId s tx hfind hp ha,
      ?_, ?_, ?_, ?_, ?_⟩
    · simp only [List.append_assoc, List.drop_left]
      exact List.mem_map.mpr ⟨tx, htx, by simp [hids.1]⟩
    · simp only [List.append_assoc, List.drop_left]
      constructor
      · intro hmem
        rcases List.mem_append.mp hmem with h | h
        · by_cases hd : tx.amountDeductedAt = none
          · exact hd
          · simp [hd] at h
        · rcases htx' : tx.receiverUserId with _ | rid <;> simp [htx'] at h
      · intro hd
        simp [hd]
    · intro rid hrid
      simp only [List.append_assoc, List.drop_left]
      refine ⟨List.mem_append.mpr (Or.inr ?_), ?_⟩
      · simp [hrid]
      · intro u
        simp [hrid]
    · intro hnone
      simp only [List.append_assoc, List.drop_left]
      refine ⟨?_, ?_⟩
      · intro e he
        rcases List.mem_append.mp he with h | h
        · by_cases hd : tx.amountDeductedAt = none <;> simp [hd] at h <;> simp [h]
        · simp [hnone] at h
      · intro u
        simp [hnone]
    · intro a ha' haid
      exact List.mem_map.mpr ⟨a, ha', by simp [resolveAlerts, haid]⟩
  · intro hfind ha
    have htx : tx ∈ s.transactions := List.mem_of_find?_eq_some hfind
    have hpred := List.find?_some hfind
    have hids : tx.txId = txId ∧ tx.userId = userId ∧ tx.dbStatus = DbStatus.pending :=
      of_decide_eq_true hpred
    refine ⟨_, confirmTransaction_eq now txId userId s tx hfind ha,
      ?_, ?_, ?_, ?_, ?_⟩
    · simp only [List.append_assoc, List.drop_left]
      exact List.mem_map.mpr ⟨tx, htx, by simp [hids.1]⟩
    · simp only [List.append_assoc, List.drop_left]
      constructor
      · intro hmem
        rcases List.mem_append.mp hmem with h | h
        · by_cases hd : tx.amountDeductedAt = none
          · exact hd
          · simp [hd] at h
        · rcases htx' : tx.receiverUserId with _ | rid <;> simp [htx'] at h
      · intro hd
        simp [hd]
    · intro rid hrid
      simp only [List.append_assoc, List.drop_left]
      refine ⟨List.mem_append.mpr (Or.inr ?_), ?_⟩
      · simp [hrid]
      · intro u
        simp [hrid]
    · intro hnone
      simp only [List.append_assoc, List.drop_left]
      refine ⟨?_, ?_⟩
      · intro e he
        rcases List.mem_append.mp he with h | h
        · by_cases hd : tx.amountDeductedAt = none <;> simp [hd] at h <;> simp [h]
        · simp [hnone] at h
      · intro u
        simp [hnone]
    · rfl

/-- Witness for C3 at a concrete state: the fixture transaction is confirmed
through the user-decision endpoint. -/
theorem C3_confirm_paths_witness :
    ∃ s', (handleUserDecision 5 "T2" "u1" "confirm" cexPendingState = .ok s' ∧
      ({ cexPendingTx with action := Action.ALLOW, dbStatus := DbStatus.success, amountDeductedAt := some 5, amountCreditedAt := some 5 }) ∈ s'.transactions) := by
  obtain ⟨s', h1, h2, -⟩ :=
    (C3_confirm_paths 5 "T2" "u1" cexPendingState cexPendingTx).1 (by rfl) rfl rfl
  exact ⟨s', h1, by simpa using h2⟩

lemma createTransaction_ledger (now : ℚ) (inp : CreateInput) (s : ServerState) :
    (createTransaction now inp s).ledger = s.ledger ++ createdRows inp := by
  unfold createTransaction createdRows
  rcases h : inp.receiverUserId with _ | rid <;>
    by_cases hA :
      (decideAction inp.bufferAction inp.riskScore inp.delayThreshold inp.blockThreshold).1 =
        Action.ALLOW <;>
    simp [h, hA]

lemma createdRows_txId {inp : CreateInput} {e : LedgerEntry} (he : e ∈ createdRows inp) :
    e.txId = inp.txId := by
  unfold createdRows at he
  by_cases hA :
      (decideAction inp.bufferAction inp.riskScore inp.delayThreshold inp.blockThreshold).1 =
        Action.ALLOW
  · rw [if_pos hA] at he
    rcases h : inp.receiverUserId with _ | rid <;> rw [h] at he
    · simp only [List.mem_singleton] at he
      simp [he]
    · simp only [List.mem_cons, List.mem_singleton, List.not_mem_nil, or_false] at he
      rcases he with he | he <;> simp [he]
  · rw [if_neg hA] at he
    simp at he

lemma createdRows_credit (inp : CreateInput) :
    (∃ e ∈ createdRows inp, e.op = LedgerOp.CREDIT) ↔
      ((decideAction inp.bufferAction inp.riskScore inp.delayThreshold inp.blockThreshold).1 =
          Action.ALLOW ∧ inp.receiverUserId ≠ none) := by
  unfold createdRows
  rcases h : inp.receiverUserId with _ | rid <;>
    by_cases hA :
      (decideAction inp.bufferAction inp.riskScore inp.delayThreshold inp.blockThreshold).1 =
        Action.ALLOW <;>
    simp [hA]

lemma decideAction_pending {b : BufferAction} {r d k : ℚ}
    (h : (decideAction b r d k).2 = DbStatus.pending) :
    (decideAction b r d k).1 = Action.DELAY := by
  unfold decideAction at h ⊢
  by_cases hB : b = BufferAction.BLOCK ∨ k ≤ r <;>
    by_cases hD : b = BufferAction.ESCALATE ∨ d ≤ r <;>
    simp [hB, hD] at h ⊢

lemma insertedTxn_txId (now : ℚ) (inp : CreateInput) :
    (insertedTxn now inp).txId = inp.txId := rfl

lemma mem_txId_unique {l : List Txn} (hnd : (l.map Txn.txId).Nodup) {t t' : Txn}
    (ht : t ∈ l) (ht' : t' ∈ l) (he : t.txId = t'.txId) : t = t' :=
  List.inj_on_of_nodup_map hnd ht ht' he

lemma stateInv_create {s : ServerState} (now : ℚ) (inp : CreateInput)
    (hfresh : ∀ t ∈ s.transactions, t.txId ≠ inp.txId) (ih : StateInv s) :
    StateInv (createTransaction now inp s) := by
  obtain ⟨hnd, hclosed, hcredit, hpend⟩ := ih
  have htxs := createTransaction_transactions now inp s
  have hled := createTransaction_ledger now inp s
  have hnoCreditOld : ∀ e ∈ s.ledger, e.txId ≠ inp.txId := by
    intro e he heq
    obtain ⟨t, htmem, hteq⟩ := hclosed e he
    exact hfresh t htmem (hteq.trans heq)
  refine ⟨?_, ?_, ?_, ?_⟩
  · rw [htxs, List.map_append]
    rw [List.nodup_append]
    refine ⟨hnd, by simp, ?_⟩
    intro a ha hb
    simp only [List.map_cons, List.map_nil, List.mem_singleton, insertedTxn_txId] at hb
    obtain ⟨t, htmem, hteq⟩ := List.mem_map.mp ha
    exact hfresh t htmem (hteq.trans hb)
  · intro e he
    rw [hled] at he
    rcases List.mem_append.mp he with h | h
    · obtain ⟨t, htmem, hteq⟩ := hclosed e h
      exact ⟨t, by rw [htxs]; exact List.mem_append.mpr (Or.inl htmem), hteq⟩
    · exact ⟨insertedTxn now inp, by rw [htxs]; simp, by rw [insertedTxn_txId, createdRows_txId h]⟩
  · intro t htmem
    rw [htxs] at htmem
    rcases List.mem_append.mp htmem with hold | hnew
    · have hnotin : ∀ e ∈ createdRows inp, e.txId ≠ t.txId := by
        intro e he heq
        exact hfresh t hold ((createdRows_txId he).symm.trans heq).symm
      obtain ⟨h1, h2⟩ := hcredit t hold
      constructor
      · intro hrec
        rw [h1 hrec, hled]
        constructor
        · rintro ⟨e, he, hop, heq⟩
          exact ⟨e, List.mem_append.mpr (Or.inl he), hop, heq⟩
        · rintro ⟨e, he, hop, heq⟩
          rcases List.mem_append.mp he with h | h
          · exact ⟨e, h, hop, heq⟩
          · exact absurd heq (hnotin e h)
      · intro hrec e he
        rw [hled] at he
        rcases List.mem_append.mp he with h | h
        · exact h2 hrec e h
        · rintro ⟨-, heq⟩
          exact hnotin e h heq
    · simp only [List.mem_singleton] at hnew
      subst hnew
      have hfreshled : ∀ e ∈ s.ledger,
          ¬(e.op = LedgerOp.CREDIT ∧ e.txId = (insertedTxn now inp).txId) := by
        rintro e he ⟨-, heq⟩
        exact hnoCreditOld e he (by rw [← insertedTxn_txId now inp]; exact heq)
      constructor
      · intro hrec
        rw [hled]
        have hrec' : inp.receiverUserId ≠ none := hrec
        constructor
        · intro hcred'
          have hA :
              (decideAction inp.bufferAction inp.riskScore inp.delayThreshold
                inp.blockThreshold).1 = Action.ALLOW := by
            by_contra hA
            unfold insertedTxn at hcred'
            simp only at hcred'
            rw [if_neg (by
              rintro ⟨h1, -⟩
              exact hA h1)] at hcred'
            exact hcred' rfl
          obtain ⟨e, he, hop⟩ := (createdRows_credit inp).mpr ⟨hA, hrec'⟩
          exact ⟨e, List.mem_append.mpr (Or.inr he), hop, createdRows_txId he⟩
        · rintro ⟨e, he, hop, heq⟩
          rcases List.mem_append.mp he with h | h
          · exact absurd ⟨hop, heq⟩ (hfreshled e h)
          · have hA := ((createdRows_credit inp).mp ⟨e, h, hop⟩).1
            unfold insertedTxn
            simp only
            rw [if_pos ⟨hA, hrec'⟩]
            simp
      · intro hrec e he
        rw [hled] at he
        rcases List.mem_append.mp he with h | h
        · exact hfreshled e h
        · rintro ⟨hop, -⟩
          have := (createdRows_credit inp).mp ⟨e, h, hop⟩
          unfold insertedTxn at hrec
          simp only at hrec
          exact this.2 hrec
  · intro t htmem hst
    rw [htxs] at htmem
    rcases List.mem_append.mp htmem with hold | hnew
    · exact hpend t hold hst
    · simp only [List.mem_singleton] at hnew
      subst hnew
      unfold insertedTxn at hst ⊢
      simp only at hst ⊢
      exact decideAction_pending hst

lemma map_upd_txIds (l : List Txn) (upd : Txn → Txn) (h : ∀ t, (upd t).txId = t.txId) :
    (l.map upd).map Txn.txId = l.map Txn.txId := by
  rw [List.map_map]
  exact List.map_congr_left fun t _ => h t

lemma stateInv_noncredit_update (s : ServerState) (newRows : List LedgerEntry)
    (upd : Txn → Txn) (bal : String → ℚ) (al : List FraudAlert) (lg : List AdminLog)
    (ev : List Event) (rd : RedisState)
    (hops : ∀ e ∈ newRows, e.op ≠ LedgerOp.CREDIT)
    (hclosedNew : ∀ e ∈ newRows, ∃ t ∈ s.transactions, t.txId = e.txId)
    (hupdId : ∀ t, (upd t).txId = t.txId)
    (hupdRecv : ∀ t, (upd t).receiverUserId = t.receiverUserId)
    (hupdCred : ∀ t, (upd t).amountCreditedAt = t.amountCreditedAt)
    (hupdPend : ∀ t ∈ s.transactions,
      (upd t).dbStatus = DbStatus.pending → (upd t).action = Action.DELAY)
    (ih : StateInv s) :
    StateInv
      { transactions := s.transactions.map upd, ledger := s.ledger ++ newRows,
        balances := bal, alerts := al, adminLogs := lg, events := ev, redis := rd } := by
  obtain ⟨hnd, hclosed, hcredit, -⟩ := ih
  refine ⟨?_, ?_, ?_, ?_⟩
  · simpa [map_upd_txIds s.transactions upd hupdId] using hnd
  · intro e he
    rcases List.mem_append.mp he with h | h
    · obtain ⟨t, htmem, hteq⟩ := hclosed e h
      exact ⟨upd t, List.mem_map_of_mem upd htmem, (hupdId t).trans hteq⟩
    · obtain ⟨t, htmem, hteq⟩ := hclosedNew e h
      exact ⟨upd t, List.mem_map_of_mem upd htmem, (hupdId t).trans hteq⟩
  · intro t' ht'
    obtain ⟨t, htmem, rfl⟩ := List.mem_map.mp ht'
    obtain ⟨h1, h2⟩ := hcredit t htmem
    constructor
    · intro hrec
      rw [hupdCred, h1 (by rw [hupdRecv t] at hrec; exact hrec)]
      constructor
      · rintro ⟨e, he, hop, heq⟩
        exact ⟨e, List.mem_append.mpr (Or.inl he), hop, heq.trans (hupdId t).symm⟩
      · rintro ⟨e, he, hop, heq⟩
        rcases List.mem_append.mp he with h | h
        · exact ⟨e, h, hop, heq.trans (hupdId t)⟩
        · exact absurd hop (hops e h)
    · intro hrec e he
      rw [hupdRecv t] at hrec
      rcases List.mem_append.mp he with h | h
      · rintro ⟨hop, heq⟩
        exact h2 hrec e h ⟨hop, heq.trans (hupdId t)⟩
      · rintro ⟨hop, -⟩
        exact hops e h hop
  · intro t' ht'
    obtain ⟨t, htmem, rfl⟩ := List.mem_map.mp ht'
    exact hupdPend t htmem

lemma stateInv_confirm_update (s : ServerState) (now : ℚ) (txId userId : String)
    (tx : Txn) (newStatus : DbStatus) (hns : newStatus ≠ DbStatus.pending)
    (htx : tx ∈ s.transactions) (hid : tx.txId = txId)
    (bal : String → ℚ) (al : List FraudAlert) (lg : List AdminLog) (ev : List Event)
    (rd : RedisState) (ih : StateInv s) :
    StateInv
      { transactions := s.transactions.map fun t =>
          if t.txId = txId then
            { t with action := Action.ALLOW, dbStatus := newStatus,
                     amountDeductedAt := some (t.amountDeductedAt.getD now),
                     amountCreditedAt := some now }
          else t,
        ledger := s.ledger ++
          ((if tx.amountDeductedAt = none then
            [⟨txId, LedgerOp.DEBIT, userId, tx.amount, "Confirm delayed transaction"⟩]
           else []) ++
          (match tx.receiverUserId with
           | some rid => [⟨txId, LedgerOp.CREDIT, rid, tx.amount, "Credit from " ++ userId⟩]
           | none => [])),
        balances := bal, alerts := al, adminLogs := lg, events := ev, redis := rd } := by
  obtain ⟨hnd, hclosed, hcredit, hpend⟩ := ih
  have hnewId : ∀ e ∈ ((if tx.amountDeductedAt = none then
      [(⟨txId, LedgerOp.DEBIT, userId, tx.amount, "Confirm delayed transaction"⟩ : LedgerEntry)]
     else []) ++
    (match tx.receiverUserId with
     | some rid => [⟨txId, LedgerOp.CREDIT, rid, tx.amount, "Credit from " ++ userId⟩]
     | none => [])), e.txId = txId := by
    intro e he
    rcases List.mem_append.mp he with h | h
    · by_cases hd : tx.amountDeductedAt = none
      · rw [if_pos hd] at h
        simp only [List.mem_singleton] at h
        simp [h]
      · rw [if_neg hd] at h
        simp at h
    · rcases hr : tx.receiverUserId with _ | rid <;> rw [hr] at h
      · simp at h
      · simp only [List.mem_singleton] at h
        simp [h]
  have hupdId : ∀ t : Txn, ((fun t =>
      if t.txId = txId then
        { t with action := Action.ALLOW, dbStatus := newStatus,
                 amountDeductedAt := some (t.amountDeductedAt.getD now),
                 amountCreditedAt := some now }
      else t) t).txId = t.txId := by
    intro t
    by_cases h : t.txId = txId <;> simp [h]
  refine ⟨?_, ?_, ?_, ?_⟩
  · simpa [map_upd_txIds s.transactions _ hupdId] using hnd
  · intro e he
    rcases List.mem_append.mp he with h | h
    · obtain ⟨t, htmem, hteq⟩ := hclosed e h
      exact ⟨_, List.mem_map_of_mem _ htmem, (hupdId t).trans hteq⟩
    · exact ⟨_, List.mem_map_of_mem _ htx, (hupdId tx).trans (hid.trans (hnewId e h).symm)⟩
  · intro t' ht'
    obtain ⟨t, htmem, rfl⟩ := List.mem_map.mp ht'
    by_cases h : t.txId = txId
    · have heq : t = tx := mem_txId_unique hnd htmem htx (h.trans hid.symm)
      subst heq
      rw [if_pos h]
      constructor
      · intro hrec
        dsimp only at hrec ⊢
        constructor
        · intro _
          rcases hr : t.receiverUserId with _ | rid
          · rw [hr] at hrec
            exact absurd rfl hrec
          · refine ⟨⟨txId, LedgerOp.CREDIT, rid, t.amount, "Credit from " ++ userId⟩,
              List.mem_append.mpr (Or.inr (List.mem_append.mpr (Or.inr (by simp)))),
              rfl, by simp [h]⟩
        · intro _
          simp
      · intro hrec
        dsimp only at hrec
        intro e he
        rcases List.mem_append.mp he with hin | hin
        · intro hpair
          exact (hcredit t htmem).2 hrec e hin ⟨hpair.1, by simpa using hpair.2⟩
        · rcases List.mem_append.mp hin with hin2 | hin2
          · by_cases hd : t.amountDeductedAt = none
            · rw [if_pos hd] at hin2
              simp only [List.mem_singleton] at hin2
              subst hin2
              rintro ⟨hop, -⟩
              exact LedgerOp.noConfusion hop
            · rw [if_neg hd] at hin2
              simp at hin2
          · rw [hrec] at hin2
            simp at hin2
    · rw [if_neg h]
      obtain ⟨h1, h2⟩ := hcredit t htmem
      constructor
      · intro hrec
        rw [h1 hrec]
        constructor
        · rintro ⟨e, he, hop, heq⟩
          exact ⟨e, List.mem_append.mpr (Or.inl he), hop, heq⟩
        · rintro ⟨e, he, hop, heq⟩
          rcases List.mem_append.mp he with hin | hin
          · exact ⟨e, hin, hop, heq⟩
          · exact absurd (heq.symm.trans (hnewId e hin)) h
      · intro hrec e he
        rcases List.mem_append.mp he with hin | hin
        · exact h2 hrec e hin
        · rintro ⟨-, heq⟩
          exact h (heq.symm.trans (hnewId e hin))
  · intro t' ht'
    obtain ⟨t, htmem, rfl⟩ := List.mem_map.mp ht'
    by_cases h : t.txId = txId
    · rw [if_pos h]
      intro hst
      exact absurd hst hns
    · rw [if_neg h]
      exact hpend t htmem

lemma handleUserDecision_cancel_eq (now : ℚ) (txId userId dec : String) (s : ServerState)
    (tx : Txn) (hfind : findTxn s.transactions txId userId = some tx)
    (hp : tx.dbStatus = DbStatus.pending) (hdec : dec ≠ "confirm") :
    handleUserDecision now txId userId dec s = .ok
      { s with
        ledger := s.ledger ++
          (if tx.amountDeductedAt ≠ none then
            [⟨txId, LedgerOp.REFUND, userId, tx.amount, "Cancelled delayed transaction"⟩]
           else []),
        balances :=
          (if tx.amountDeductedAt ≠ none then
            fun u => if u = userId then s.balances u + tx.amount else s.balances u
           else s.balances),
        transactions := s.transactions.map fun t =>
          if t.txId = txId then
            { t with action := Action.BLOCK, dbStatus := DbStatus.cancelled }
          else t,
        alerts := resolveAlerts s.alerts txId dec now } := by
  unfold handleUserDecision
  rw [hfind]
  simp [hp, hdec]

lemma findTxn_mem {l : List Txn} {txId userId : String} {tx : Txn}
    (h : findTxn l txId userId = some tx) :
    tx ∈ l ∧ tx.txId = txId ∧ tx.userId = userId := by
  unfold findTxn at h
  have hp := List.find?_some h
  simp only [decide_eq_true_eq] at hp
  exact ⟨List.mem_of_find?_eq_some h, hp⟩

lemma findPendingTxn_mem {l : List Txn} {txId userId : String} {tx : Txn}
    (h : findPendingTxn l txId userId = some tx) :
    tx ∈ l ∧ tx.txId = txId ∧ tx.userId = userId ∧ tx.dbStatus = DbStatus.pending := by
  unfold findPendingTxn at h
  have hp := List.find?_some h
  simp only [decide_eq_true_eq] at hp
  exact ⟨List.mem_of_find?_eq_some h, hp⟩

lemma dbGetTransaction_mem {l : List Txn} {txId : String} {tx : Txn}
    (h : dbGetTransaction l txId = some tx) : tx ∈ l ∧ tx.txId = txId := by
  unfold dbGetTransaction at h
  have hp := List.find?_some h
  simp only [decide_eq_true_eq] at hp
  exact ⟨List.mem_of_find?_eq_some h, hp⟩

lemma stateInv_decision {now : ℚ} {txId userId dec : String} {s s' : ServerState}
    (hok : handleUserDecision now txId userId dec s = .ok s') (ih : StateInv s) :
    StateInv s' := by
  rcases hfind : findTxn s.transactions txId userId with _ | tx
  · unfold handleUserDecision at hok
    rw [hfind] at hok
    simp at hok
  · obtain ⟨htx, hids⟩ := findTxn_mem hfind
    have hp : tx.dbStatus = DbStatus.pending := by
      by_contra hp
      unfold handleUserDecision at hok
      rw [hfind] at hok
      simp [hp] at hok
    by_cases hdec : dec = "confirm"
    · subst hdec
      have hdel : tx.action = Action.DELAY := by
        by_contra hdel
        unfold handleUserDecision at hok
        rw [hfind] at hok
        simp [hp, hdel] at hok
      have heq := handleUserDecision_confirm_eq now txId userId s tx hfind hp hdel
      rw [heq] at hok
      injection hok with hok
      subst hok
      have hinv := stateInv_confirm_update s now txId userId tx DbStatus.success (by simp)
        htx hids.1
        (match tx.receiverUserId with
         | some rid => fun u => if u = rid then s.balances u + tx.amount else s.balances u
         | none => s.balances)
        (resolveAlerts s.alerts txId "confirm" now) s.adminLogs s.events s.redis ih
      rw [← List.append_assoc] at hinv
      exact hinv
    · have heq := handleUserDecision_cancel_eq now txId userId dec s tx hfind hp hdec
      rw [heq] at hok
      injection hok with hok
      subst hok
      refine stateInv_noncredit_update s _ _ _ _ _ _ _ ?_ ?_ ?_ ?_ ?_ ?_ ih
      · intro e he
        by_cases hd : tx.amountDeductedAt ≠ none
        · rw [if_pos hd] at he
          simp only [List.mem_singleton] at he
          subst he
          exact fun hop => LedgerOp.noConfusion hop
        · rw [if_neg hd] at he
          simp at he
      · intro e he
        by_cases hd : tx.amountDeductedAt ≠ none
        · rw [if_pos hd] at he
          simp only [List.mem_singleton] at he
          subst he
          exact ⟨tx, htx, hids.1⟩
        · rw [if_neg hd] at he
          simp at he
      · intro t
        by_cases h : t.txId = txId <;> simp [h]
      · intro t
        by_cases h : t.txId = txId <;> simp [h]
      · intro t
        by_cases h : t.txId = txId <;> simp [h]
      · intro t htmem
        by_cases h : t.txId = txId <;> simp [h]
        exact ih.2.2.2 t htmem

lemma stateInv_confirmEndpoint {now : ℚ} {txId userId : String} {s s' : ServerState}
    (hok : confirmTransaction now txId userId s = .ok s') (ih : StateInv s) :
    StateInv s' := by
  rcases hfind : findPendingTxn s.transactions txId userId with _ | tx
  · unfold confirmTransaction at hok
    rw [hfind] at hok
    simp at hok
  · obtain ⟨htx, hid1, hid2, hid3⟩ := findPendingTxn_mem hfind
    have hdel : tx.action = Action.DELAY := by
      by_contra hdel
      unfold confirmTransaction at hok
      rw [hfind] at hok
      simp [hdel] at hok
    have heq := confirmTransaction_eq now txId userId s tx hfind hdel
    rw [heq] at hok
    injection hok with hok
    subst hok
    have hinv := stateInv_confirm_update s now txId userId tx DbStatus.confirmed (by simp)
      htx hid1
      (match tx.receiverUserId with
       | some rid => fun u => if u = rid then s.balances u + tx.amount else s.balances u
       | none => s.balances)
      s.alerts s.adminLogs
      (s.events ++ [⟨"transaction_confirmed", txId, tx.amount⟩] ++
        (match tx.receiverUserId with
         | some _ => [⟨"transaction_credited", txId, tx.amount⟩]
         | none => []))
      s.redis ih
    rw [← List.append_assoc] at hinv
    exact hinv

lemma stateInv_sweep (now : ℚ) {s : ServerState} (ih : StateInv s) :
    StateInv (autoRefund now s) := by
  have hinv := stateInv_noncredit_update s
    ((s.transactions.filter (expiredDelay now)).map refundRows).flatten
    (fun t => if expiredDelay now t then
      { t with dbStatus := DbStatus.autoRefunded, action := Action.BLOCK } else t)
    (((s.transactions.filter (expiredDelay now))).foldl
      (fun b t =>
        if t.amountDeductedAt ≠ none then
          fun u => if u = t.userId then b u + t.amount else b u
        else b)
      s.balances)
    s.alerts s.adminLogs
    (s.events ++ (s.transactions.filter (expiredDelay now)).map
      fun t => ⟨"transaction_auto_refunded", t.txId, t.amount⟩)
    s.redis ?_ ?_ ?_ ?_ ?_ ?_ ih
  · simpa [autoRefund] using hinv
  · intro e he
    obtain ⟨l, hl, hel⟩ := List.mem_flatten.mp he
    obtain ⟨t', ht', rfl⟩ := List.mem_map.mp hl
    unfold refundRows at hel
    by_cases hd : t'.amountDeductedAt ≠ none
    · rw [if_pos hd] at hel
      simp only [List.mem_singleton] at hel
      subst hel
      exact fun hop => LedgerOp.noConfusion hop
    · rw [if_neg hd] at hel
      simp at hel
  · intro e he
    obtain ⟨l, hl, hel⟩ := List.mem_flatten.mp he
    obtain ⟨t', ht', rfl⟩ := List.mem_map.mp hl
    obtain ⟨ht's, -⟩ := List.mem_filter.mp ht'
    unfold refundRows at hel
    by_cases hd : t'.amountDeductedAt ≠ none
    · rw [if_pos hd] at hel
      simp only [List.mem_singleton] at hel
      subst hel
      exact ⟨t', ht's, rfl⟩
    · rw [if_neg hd] at hel
      simp at hel
  · intro t
    by_cases h : expiredDelay now t <;> simp [h]
  · intro t
    by_cases h : expiredDelay now t <;> simp [h]
  · intro t
    by_cases h : expiredDelay now t <;> simp [h]
  · intro t htmem
    by_cases h : expiredDelay now t <;> simp [h]
    exact ih.2.2.2 t htmem

lemma stateInv_admin {txId req au ip : String} {s s' : ServerState}
    (hok : adminAction txId req au ip s = .ok s') (ih : StateInv s) :
    StateInv s' := by
  unfold adminAction at hok
  by_cases hup : pyUpper req ≠ "ALLOW"
  · rw [if_pos hup] at hok
    exact absurd hok (by simp)
  · rw [if_neg hup] at hok
    rcases hfind : dbGetTransaction s.transactions txId with _ | tx <;> rw [hfind] at hok
    · simp at hok
    · obtain ⟨htx, hid⟩ := dbGetTransaction_mem hfind
      dsimp only at hok
      by_cases hb : tx.action ≠ Action.BLOCK
      · rw [if_pos hb] at hok
        simp at hok
      · rw [if_neg hb] at hok
        injection hok with hok
        subst hok
        have hinv := stateInv_noncredit_update s []
          (fun t => if t.txId = txId then { t with action := Action.ALLOW } else t)
          s.balances s.alerts
          (s.adminLogs ++ [⟨txId, tx.userId, req, au, ip⟩]) s.events s.redis
          (by simp) (by simp) ?_ ?_ ?_ ?_ ih
        · rw [List.append_nil] at hinv
          exact hinv
        · intro t
          by_cases h : t.txId = txId <;> simp [h]
        · intro t
          by_cases h : t.txId = txId <;> simp [h]
        · intro t
          by_cases h : t.txId = txId <;> simp [h]
        · intro t htmem hst
          by_cases h : t.txId = txId
          · have heq : t = tx := mem_txId_unique ih.1 htmem htx (h.trans hid.symm)
            dsimp only at hst
            rw [if_pos h] at hst
            subst heq
            have := ih.2.2.2 t htmem (by simpa using hst)
            rw [not_not.mp hb] at this
            exact Action.noConfusion this
          · dsimp only at hst ⊢
            rw [if_neg h] at hst ⊢
            exact ih.2.2.2 t htmem hst

lemma reachable_stateInv {s : ServerState} (h : Reachable s) : StateInv s := by
  induction h with
  | init bal =>
      refine ⟨?_, ?_, ?_, ?_⟩ <;> simp [initState, StateInv]
  | create now inp hfresh h ih => exact stateInv_create now inp hfresh ih
  | decision now txId userId dec h hok ih => exact stateInv_decision hok ih
  | confirm now txId userId h hok ih => exact stateInv_confirmEndpoint hok ih
  | sweep now h ih => exact stateInv_sweep now ih
  | admin txId req au ip h hok ih => exact stateInv_admin hok ih

/-- C4 counterexample: after creating a DELAY transaction to an unregistered
receiver and having the sender confirm it, the reachable state holds a
transaction with `amount_credited_at` set although no CREDIT ledger row was
ever written for it. -/
theorem C4_counterexample :
    Reachable cexS2 ∧
    ∃ t ∈ cexS2.transactions, t.amountCreditedAt ≠ none ∧
      ∀ e ∈ cexS2.ledger, ¬(e.op = LedgerOp.CREDIT ∧ e.txId = t.txId) := by
  have hok : confirmTransaction 10 "T3" "u1" cexS1 = .ok cexS2 := by rfl
  refine ⟨Reachable.confirm 10 "T3" "u1" ?_ hok, ?_⟩
  · exact Reachable.create 0 cexInpDelay (by simp [initState]) (Reachable.init _)
  · decide

/-- C4 (amended): in every reachable state, a transaction whose receiver
resolves to a registered user has `amount_credited_at` non-null iff a CREDIT
ledger row was written for it; for an unregistered receiver no CREDIT row is
ever written, although confirmation still sets `amount_credited_at`. -/
theorem C4_credit_invariant {s : ServerState} (hs : Reachable s) :
    ∀ t ∈ s.transactions,
      (t.receiverUserId ≠ none →
        (t.amountCreditedAt ≠ none ↔
          ∃ e ∈ s.ledger, e.op = LedgerOp.CREDIT ∧ e.txId = t.txId)) ∧
      (t.receiverUserId = none →
        ∀ e ∈ s.ledger, ¬(e.op = LedgerOp.CREDIT ∧ e.txId = t.txId)) :=
  (reachable_stateInv hs).2.2.1

/-- Witness for C4 at a concrete reachable state: an immediately-allowed
payment to a registered receiver has a CREDIT ledger row. -/
theorem C4_credit_invariant_witness :
    ∃ e ∈ (createTransaction 0 cexInpAllow (initState fun _ => 0)).ledger,
      e.op = LedgerOp.CREDIT ∧ e.txId = "T4" := by
  have hre : Reachable (createTransaction 0 cexInpAllow (initState fun _ => 0)) :=
    Reachable.create 0 cexInpAllow (by simp [initState]) (Reachable.init _)
  have hmem : insertedTxn 0 cexInpAllow ∈
      (createTransaction 0 cexInpAllow (initState fun _ => 0)).transactions := by
    rw [createTransaction_transactions]
    simp
  have h := (C4_credit_invariant hre (insertedTxn 0 cexInpAllow) hmem).1 (by decide)
  have h2 := h.mp (by decide)
  simpa using h2

/-- C5: the admin override rejects (distinguishably: 403) every requested
action other than ALLOW and rejects (400) every transaction whose current
action is not BLOCK — in particular a pending one, which in any reachable
state has action DELAY; a successful override sets action = ALLOW and appends
an admin-log row but adds no ledger entry and changes no balance. -/
theorem C5_admin_override (txId req au ip : String) (s : ServerState) :
    (pyUpper req ≠ "ALLOW" → adminAction txId req au ip s = .error AdminErr.forbiddenAction) ∧
    (∀ tx, pyUpper req = "ALLOW" → dbGetTransaction s.transactions txId = some tx →
      tx.action ≠ Action.BLOCK → adminAction txId req au ip s = .error AdminErr.notBlocked) ∧
    (Reachable s → ∀ tx, pyUpper req = "ALLOW" →
      dbGetTransaction s.transactions txId = some tx → tx.dbStatus = DbStatus.pending →
      adminAction txId req au ip s = .error AdminErr.notBlocked) ∧
    (∀ tx s', dbGetTransaction s.transactions txId = some tx →
      adminAction txId req au ip s = .ok s' →
      tx.action = Action.BLOCK ∧
      ({ tx with action := Action.ALLOW }) ∈ s'.transactions ∧
      s'.ledger = s.ledger ∧ (∀ u, s'.balances u = s.balances u) ∧
      s'.adminLogs = s.adminLogs ++ [⟨txId, tx.userId, req, au, ip⟩] ∧
      s'.events = s.events ∧ s'.alerts = s.alerts) := by
  have hreject : ∀ tx, pyUpper req = "ALLOW" →
      dbGetTransaction s.transactions txId = some tx →
      tx.action ≠ Action.BLOCK → adminAction txId req au ip s = .error AdminErr.notBlocked := by
    intro tx hup hfind hb
    unfold adminAction
    rw [if_neg (by simp [hup]), hfind]
    dsimp only
    rw [if_pos hb]
  refine ⟨?_, hreject, ?_, ?_⟩
  · intro hup
    unfold adminAction
    rw [if_pos hup]
  · intro hs tx hup hfind hpending
    refine hreject tx hup hfind ?_
    have htx := (dbGetTransaction_mem hfind).1
    have := (reachable_stateInv hs).2.2.2 tx htx hpending
    rw [this]
    exact fun hc => Action.noConfusion hc
  · intro tx s' hfind hok
    unfold adminAction at hok
    by_cases hup : pyUpper req ≠ "ALLOW"
    · rw [if_pos hup] at hok
      simp at hok
    · rw [if_neg hup, hfind] at hok
      dsimp only at hok
      obtain ⟨htx, hid⟩ := dbGetTransaction_mem hfind
      by_cases hb : tx.action ≠ Action.BLOCK
      · rw [if_pos hb] at hok
        simp at hok
      · rw [if_neg hb] at hok
        injection hok with hok
        subst hok
        refine ⟨not_not.mp hb, ?_, rfl, fun u => rfl, rfl, rfl, rfl⟩
        exact List.mem_map.mpr ⟨tx, htx, by simp [hid]⟩

/-- Witness for C5 at concrete states: a BLOCK request is refused with 403,
and unblocking a pending (DELAY) transaction is refused with 400. -/
theorem C5_admin_override_witness :
    adminAction "T2" "BLOCK" "adm" "ip" cexPendingState = .error AdminErr.forbiddenAction ∧
    adminAction "T2" "allow" "adm" "ip" cexPendingState = .error AdminErr.notBlocked := by
  constructor
  · exact (C5_admin_override "T2" "BLOCK" "adm" "ip" cexPendingState).1 (by decide)
  · exact (C5_admin_override "T2" "allow" "adm" "ip" cexPendingState).2.1 cexPendingTx
      (by decide) rfl (by decide)

lemma handleUserDecision_redis {now : ℚ} {txId userId dec : String} {s s' : ServerState}
    (hok : handleUserDecision now txId userId dec s = .ok s') : s'.redis = s.redis := by
  rcases hfind : findTxn s.transactions txId userId with _ | tx
  · unfold handleUserDecision at hok
    rw [hfind] at hok
    simp at hok
  · have hp : tx.dbStatus = DbStatus.pending := by
      by_contra hp
      unfold handleUserDecision at hok
      rw [hfind] at hok
      simp [hp] at hok
    by_cases hdec : dec = "confirm"
    · subst hdec
      have hdel : tx.action = Action.DELAY := by
        by_contra hdel
        unfold handleUserDecision at hok
        rw [hfind] at hok
        simp [hp, hdel] at hok
      rw [handleUserDecision_confirm_eq now txId userId s tx hfind hp hdel] at hok
      injection hok with hok
      subst hok
      rfl
    · rw [handleUserDecision_cancel_eq now txId userId dec s tx hfind hp hdec] at hok
      injection hok with hok
      subst hok
      rfl

lemma confirmTransaction_redis {now : ℚ} {txId userId : String} {s s' : ServerState}
    (hok : confirmTransaction now txId userId s = .ok s') : s'.redis = s.redis := by
  rcases hfind : findPendingTxn s.transactions txId userId with _ | tx
  · unfold confirmTransaction at hok
    rw [hfind] at hok
    simp at hok
  · have hdel : tx.action = Action.DELAY := by
      by_contra hdel
      unfold confirmTransaction at hok
      rw [hfind] at hok
      simp [hdel] at hok
    rw [confirmTransaction_eq now txId userId s tx hfind hdel] at hok
    injection hok with hok
    subst hok
    rfl

lemma adminAction_redis {txId req au ip : String} {s s' : ServerState}
    (hok : adminAction txId req au ip s = .ok s') : s'.redis = s.redis := by
  unfold adminAction at hok
  by_cases hup : pyUpper req ≠ "ALLOW"
  · rw [if_pos hup] at hok
    simp at hok
  · rw [if_neg hup] at hok
    rcases hfind : dbGetTransaction s.transactions txId with _ | tx <;> rw [hfind] at hok
    · simp at hok
    · dsimp only at hok
      by_cases hb : tx.action ≠ Action.BLOCK
      · rw [if_pos hb] at hok
        simp at hok
      · rw [if_neg hb] at hok
        injection hok with hok
        subst hok
        rfl

/-- C6: `is_new_recipient` is 1 iff the recipient is absent from the sender's
known-recipient set at extraction time, feature extraction never modifies
that set, and across the whole lifecycle the set is amended only when
`create_transaction` decides ALLOW — no other transition touches the store. -/
theorem C6_recipient_set :
    (∀ (L : ℚ → ℚ) (SD : List ℚ → ℚ) (rs : RedisState) (tx : TxIn) feats rs',
      extract_features L SD rs tx = some (feats, rs') →
      ((feats.lookup "is_new_recipient" = some 1 ↔
          (tx.userId, tx.recipientVpa) ∉ rs.recipients) ∧
        feats.lookup "is_new_recipient" =
          some (if (tx.userId, tx.recipientVpa) ∈ rs.recipients then 0 else 1) ∧
        rs'.recipients = rs.recipients)) ∧
    (∀ (now : ℚ) (inp : CreateInput) (s : ServerState),
      (createTransaction now inp s).redis.recipients ≠ s.redis.recipients →
      (decideAction inp.bufferAction inp.riskScore inp.delayThreshold inp.blockThreshold).1 =
        Action.ALLOW) ∧
    (∀ (now : ℚ) (txId userId dec : String) (s s' : ServerState),
      handleUserDecision now txId userId dec s = .ok s' → s'.redis = s.redis) ∧
    (∀ (now : ℚ) (txId userId : String) (s s' : ServerState),
      confirmTransaction now txId userId s = .ok s' → s'.redis = s.redis) ∧
    (∀ (now : ℚ) (s : ServerState), (autoRefund now s).redis = s.redis) ∧
    (∀ (txId req au ip : String) (s s' : ServerState),
      adminAction txId req au ip s = .ok s' → s'.redis = s.redis) := by
  refine ⟨?_, ?_, fun _ _ _ _ _ _ h => handleUserDecision_redis h,
    fun _ _ _ _ _ h => confirmTransaction_redis h, fun _ _ => rfl,
    fun _ _ _ _ _ _ h => adminAction_redis h⟩
  · intro L SD rs tx feats rs' h
    unfold extract_features at h
    rcases hm : merchantRiskScore tx.recipientVpa with _ | mrs <;> rw [hm] at h
    · simp at h
    · dsimp only at h
      injection h with h
      injection h with h1 h2
      subst h1
      subst h2
      refine ⟨?_, rfl, rfl⟩
      change some (if (tx.userId, tx.recipientVpa) ∈ rs.recipients then (0 : ℚ) else 1) =
          some 1 ↔ _
      by_cases hmem : (tx.userId, tx.recipientVpa) ∈ rs.recipients <;> simp [hmem]
  · intro now inp s hne
    by_contra hA
    apply hne
    unfold createTransaction
    rcases h : inp.receiverUserId with _ | rid <;> simp [h, hA]

/-- Witness for C6 at a concrete extraction: the fixture recipient is already
known, so `is_new_recipient` is 0 and the set is returned unchanged. -/
theorem C6_recipient_set_witness :
    ∃ feats rs', (extract_features id (fun _ => 0) cexRs cexTxIn = some (feats, rs') ∧
      feats.lookup "is_new_recipient" = some 0 ∧ rs'.recipients = cexRs.recipients) := by
  rcases hx : extract_features id (fun _ => 0) cexRs cexTxIn with _ | p
  · exact absurd hx (by decide)
  · obtain ⟨h1, h2, h3⟩ := (C6_recipient_set).1 id (fun _ => 0) cexRs cexTxIn p.1 p.2
      (by simp [hx])
    refine ⟨p.1, p.2, by simp [hx], ?_, h3⟩
    rw [h2]
    norm_num [cexRs, cexTxIn]

/-- C7 counterexample: `get_feature_names` lists 27 names, not 26, and a
concrete extraction yields a 27-entry feature dict. -/
theorem C7_counterexample :
    featureNames.length = 27 ∧ featureNames.length ≠ 26 ∧
    (extract_features id (fun _ => 0) cexRs cexTxIn).map (fun p => p.1.length) = some 27 := by
  refine ⟨by decide, by decide, ?_⟩
  rfl

/-- C7 (amended): for every input whose extraction succeeds, the extractor
outputs exactly the 27 named features of `get_feature_names` in that order,
and the scorer's vector conversion always produces a 27-dimensional vector. -/
theorem C7_feature_vector (L : ℚ → ℚ) (SD : List ℚ → ℚ) (rs : RedisState) (tx : TxIn) :
    (∀ feats rs', extract_features L SD rs tx = some (feats, rs') →
      feats.map Prod.fst = featureNames) ∧
    featureNames.length = 27 ∧
    (∀ f : List (String × ℚ), (features_to_vector f).length = 27) := by
  refine ⟨?_, by decide, fun f => ?_⟩
  · intro feats rs' h
    unfold extract_features at h
    rcases hm : merchantRiskScore tx.recipientVpa with _ | mrs <;> rw [hm] at h
    · simp at h
    · dsimp only at h
      injection h with h
      injection h with h1 h2
      subst h1
      rfl
  · unfold features_to_vector
    rw [List.length_map]
    decide

/-- Witness for C7 at a concrete extraction: the fixture transaction's
feature dict carries exactly the 27 names in order. -/
theorem C7_feature_vector_witness :
    (extract_features id (fun _ => 0) cexRs cexTxIn).map (fun p => p.1.map Prod.fst) =
      some featureNames := by
  rcases hx : extract_features id (fun _ => 0) cexRs cexTxIn with _ | p
  · exact absurd hx (by decide)
  · have h := (C7_feature_vector id (fun _ => 0) cexRs cexTxIn).1 p.1 p.2 (by simp [hx])
    simpa using h

lemma log1p_20_pos : 0 < log1p 20 := by
  unfold log1p
  exact Real.log_pos (by norm_num)

lemma log1p_50000_pos : 0 < log1p 50000 := by
  unfold log1p
  exact Real.log_pos (by norm_num)

lemma log1p_nat_mono {n₁ n₂ : ℕ} (h : n₁ ≤ n₂) : log1p (n₁ : ℝ) ≤ log1p (n₂ : ℝ) := by
  unfold log1p
  have hc : ((n₁ : ℝ)) ≤ (n₂ : ℝ) := Nat.cast_le.mpr h
  exact Real.log_le_log (by positivity) (by linarith)

lemma freq_bounds (n : ℕ) : 0 ≤ min 1 (log1p (n : ℝ) / log1p 20) ∧
    min 1 (log1p (n : ℝ) / log1p 20) ≤ 1 := by
  refine ⟨le_min (by norm_num) (div_nonneg ?_ log1p_20_pos.le), min_le_left _ _⟩
  unfold log1p
  have hc : (0:ℝ) ≤ (n : ℝ) := Nat.cast_nonneg n
  exact Real.log_nonneg (by linarith)

lemma vol_bounds {a : ℝ} (ha : 0 ≤ a) : 0 ≤ min 1 (log1p a / log1p 50000) ∧
    min 1 (log1p a / log1p 50000) ≤ 1 := by
  refine ⟨le_min (by norm_num) (div_nonneg ?_ log1p_50000_pos.le), min_le_left _ _⟩
  unfold log1p
  exact Real.log_nonneg (by linarith)

lemma lon_bounds {d : ℝ} (hd : 0 ≤ d) : 0 ≤ min 1 (d / 90) ∧ min 1 (d / 90) ≤ 1 :=
  ⟨le_min (by norm_num) (by positivity), min_le_left _ _⟩

lemma trust_0000 : compute_trust_score 0 0 0 0 = 0.3 := by
  unfold compute_trust_score
  dsimp only
  have hfreq : min (1:ℝ) (log1p ((0:ℕ):ℝ) / log1p 20) = 0 := by
    unfold log1p
    norm_num
  have hvol : min (1:ℝ) (log1p (0:ℝ) / log1p 50000) = 0 := by
    unfold log1p
    norm_num
  rw [hfreq, hvol, if_pos ⟨rfl, rfl⟩]
  norm_num

lemma trust_1000_lt : compute_trust_score 1 0 0 0 < 0.3 := by
  unfold compute_trust_score
  dsimp only
  have hkey : log1p ((1:ℕ):ℝ) / log1p 20 < 6/7 := by
    unfold log1p
    rw [div_lt_iff₀ (by norm_num; exact Real.log_pos (by norm_num))]
    norm_num
    have h7 : (7:ℝ) * Real.log 2 < 6 * Real.log 21 := by
      rw [show (7:ℝ) * Real.log 2 = Real.log (2^7) by
            rw [Real.log_pow]
            norm_num,
          show (6:ℝ) * Real.log 21 = Real.log (21^6) by
            rw [Real.log_pow]
            norm_num]
      exact Real.log_lt_log (by positivity) (by norm_num)
    linarith
  have hr := min_le_right (1:ℝ) (log1p ((1:ℕ):ℝ) / log1p 20)
  have hvol : min (1:ℝ) (log1p (0:ℝ) / log1p 50000) = 0 := by
    unfold log1p
    norm_num
  rw [hvol, if_neg (by omega)]
  have hmax : max (0:ℝ) (max 0 (0.35 * min 1 (log1p ((1:ℕ):ℝ) / log1p 20) +
      0.25 * 0 + 0.40 * min 1 ((0:ℝ)/90) - min 1 (((0:ℕ):ℝ) * 0.5))) < 0.3 := by
    apply max_lt (by norm_num)
    apply max_lt (by norm_num)
    have hlon : min (1:ℝ) ((0:ℝ)/90) = 0 := by norm_num
    have hpen : min (1:ℝ) (((0:ℕ):ℝ) * 0.5) = 0 := by norm_num
    rw [hlon, hpen]
    nlinarith
  exact lt_of_le_of_lt (min_le_right _ _) hmax

lemma trust_flags_saturated {f : ℕ} (hf : 2 ≤ f) : compute_trust_score 1 0 0 f = 0 := by
  unfold compute_trust_score
  dsimp only
  have hpen : min (1:ℝ) ((f:ℝ) * 0.5) = 1 := by
    apply min_eq_left
    have : (2:ℝ) ≤ (f:ℝ) := by exact_mod_cast hf
    nlinarith
  have hvol : min (1:ℝ) (log1p (0:ℝ) / log1p 50000) = 0 := by
    unfold log1p
    norm_num
  have hlon : min (1:ℝ) ((0:ℝ)/90) = 0 := by norm_num
  obtain ⟨hf0, hf1⟩ := freq_bounds 1
  rw [hpen, hvol, hlon, if_neg (by omega)]
  have hmax : max (0:ℝ) (0.35 * min 1 (log1p ((1:ℕ):ℝ) / log1p 20) +
      0.25 * 0 + 0.40 * 0 - 1) = 0 := by
    apply max_eq_left
    nlinarith
  rw [hmax]
  norm_num

/-- C8 counterexample: the trust score is not monotone in `tx_count` — the
0.3 new-recipient baseline at `tx_count = 0` exceeds the score at
`tx_count = 1` — and it is not strictly decreasing in `fraud_flags` once the
penalty saturates (2 and 3 flags give the same score). -/
theorem C8_counterexample :
    compute_trust_score 1 0 0 0 < compute_trust_score 0 0 0 0 ∧
    compute_trust_score 1 0 0 2 = compute_trust_score 1 0 0 3 := by
  constructor
  · rw [trust_0000]
    exact trust_1000_lt
  · rw [trust_flags_saturated (by norm_num), trust_flags_saturated (by norm_num)]

/-- C8 (amended): holding the other inputs fixed, the trust score is monotone
non-decreasing in `total_amount`; it is monotone non-decreasing in `tx_count`
on counts ≥ 1 (the new-recipient baseline breaks monotonicity only at 0); it
is monotone non-increasing in `fraud_flags`, and strictly decreasing from 0
to 1 flag. -/
theorem C8_trust_monotonicity :
    (∀ (n : ℕ) (a₁ a₂ d : ℝ) (f : ℕ), 0 ≤ a₁ → a₁ ≤ a₂ →
      compute_trust_score n a₁ d f ≤ compute_trust_score n a₂ d f) ∧
    (∀ (n₁ n₂ : ℕ) (a d : ℝ) (f : ℕ), 1 ≤ n₁ → n₁ ≤ n₂ →
      compute_trust_score n₁ a d f ≤ compute_trust_score n₂ a d f) ∧
    (∀ (n : ℕ) (a d : ℝ) (f₁ f₂ : ℕ), f₁ ≤ f₂ →
      compute_trust_score n a d f₂ ≤ compute_trust_score n a d f₁) ∧
    (∀ (n : ℕ) (a d : ℝ), 0 ≤ a → 0 ≤ d →
      compute_trust_score n a d 1 < compute_trust_score n a d 0) := by
  refine ⟨?_, ?_, ?_, ?_⟩
  · intro n a₁ a₂ d f ha h
    unfold compute_trust_score
    dsimp only
    have hv : log1p a₁ ≤ log1p a₂ := by
      unfold log1p
      exact Real.log_le_log (by linarith) (by linarith)
    have hvmin : min 1 (log1p a₁ / log1p 50000) ≤ min 1 (log1p a₂ / log1p 50000) :=
      min_le_min le_rfl ((div_le_div_iff_of_pos_right log1p_50000_pos).mpr hv)
    have ht1 : max 0 (0.35 * min 1 (log1p (n : ℝ) / log1p 20) +
          0.25 * min 1 (log1p a₁ / log1p 50000) + 0.40 * min 1 (d / 90) -
          min 1 ((f : ℝ) * 0.5)) ≤
        max 0 (0.35 * min 1 (log1p (n : ℝ) / log1p 20) +
          0.25 * min 1 (log1p a₂ / log1p 50000) + 0.40 * min 1 (d / 90) -
          min 1 ((f : ℝ) * 0.5)) :=
      max_le_max le_rfl (by linarith)
    by_cases hc : n = 0 ∧ f = 0
    · rw [if_pos hc, if_pos hc]
      exact min_le_min le_rfl (max_le_max le_rfl (max_le_max ht1 le_rfl))
    · rw [if_neg hc, if_neg hc]
      exact min_le_min le_rfl (max_le_max le_rfl ht1)
  · intro n₁ n₂ a d f h1 h
    unfold compute_trust_score
    dsimp only
    have hf : log1p (n₁ : ℝ) / log1p 20 ≤ log1p (n₂ : ℝ) / log1p 20 :=
      (div_le_div_iff_of_pos_right log1p_20_pos).mpr (log1p_nat_mono h)
    rw [if_neg (by omega), if_neg (by omega)]
    exact min_le_min le_rfl (max_le_max le_rfl (max_le_max le_rfl
      (by have := min_le_min (le_refl (1:ℝ)) hf; linarith)))
  · intro n a d f₁ f₂ h
    unfold compute_trust_score
    dsimp only
    have hpen : min 1 ((f₁ : ℝ) * 0.5) ≤ min 1 ((f₂ : ℝ) * 0.5) :=
      min_le_min le_rfl (mul_le_mul_of_nonneg_right (Nat.cast_le.mpr h) (by norm_num))
    have ht1 : max 0 (0.35 * min 1 (log1p (n : ℝ) / log1p 20) +
          0.25 * min 1 (log1p a / log1p 50000) + 0.40 * min 1 (d / 90) -
          min 1 ((f₂ : ℝ) * 0.5)) ≤
        max 0 (0.35 * min 1 (log1p (n : ℝ) / log1p 20) +
          0.25 * min 1 (log1p a / log1p 50000) + 0.40 * min 1 (d / 90) -
          min 1 ((f₁ : ℝ) * 0.5)) :=
      max_le_max le_rfl (by linarith)
    by_cases hc2 : n = 0 ∧ f₂ = 0
    · have hc1 : n = 0 ∧ f₁ = 0 := ⟨hc2.1, by omega⟩
      rw [if_pos hc2, if_pos hc1]
      exact min_le_min le_rfl (max_le_max le_rfl (max_le_max ht1 le_rfl))
    · by_cases hc1 : n = 0 ∧ f₁ = 0
      · rw [if_neg hc2, if_pos hc1]
        exact min_le_min le_rfl (max_le_max le_rfl (ht1.trans (le_max_left _ _)))
      · rw [if_neg hc2, if_neg hc1]
        exact min_le_min le_rfl (max_le_max le_rfl ht1)
  · intro n a d ha hd
    unfold compute_trust_score
    dsimp only
    obtain ⟨hf0, hf1⟩ := freq_bounds n
    obtain ⟨hv0, hv1⟩ := vol_bounds ha
    obtain ⟨hl0, hl1⟩ := lon_bounds hd
    have hpen1 : (0.5:ℝ) ≤ min 1 (((1:ℕ):ℝ) * 0.5) := le_min (by norm_num) (by norm_num)
    have hpen0 : min (1:ℝ) (((0:ℕ):ℝ) * 0.5) = 0 := by norm_num
    rw [if_neg (by omega), hpen0, sub_zero]
    rcases Nat.eq_zero_or_pos n with hn | hn
    · subst hn
      rw [if_pos ⟨rfl, rfl⟩]
      have hfreq0 : min (1:ℝ) (log1p ((0:ℕ):ℝ) / log1p 20) = 0 := by
        unfold log1p
        norm_num
      have hL : min (1:ℝ) (max 0 (max 0 (0.35 * min 1 (log1p ((0:ℕ):ℝ) / log1p 20) +
          0.25 * min 1 (log1p a / log1p 50000) + 0.40 * min 1 (d / 90) -
          min 1 (((1:ℕ):ℝ) * 0.5)))) ≤ 0.15 := by
        refine (min_le_right _ _).trans (max_le (by norm_num) (max_le (by norm_num) ?_))
        rw [hfreq0]
        linarith
      have hR : (0.3:ℝ) ≤ min 1 (max 0 (max (max 0
          (0.35 * min 1 (log1p ((0:ℕ):ℝ) / log1p 20) +
           0.25 * min 1 (log1p a / log1p 50000) + 0.40 * min 1 (d / 90))) 0.3)) := by
        refine le_min (by norm_num) ?_
        exact le_max_of_le_right (le_max_right _ _)
      calc min (1:ℝ) (max 0 (max 0 (0.35 * min 1 (log1p ((0:ℕ):ℝ) / log1p 20) +
            0.25 * min 1 (log1p a / log1p 50000) + 0.40 * min 1 (d / 90) -
            min 1 (((1:ℕ):ℝ) * 0.5)))) ≤ 0.15 := hL
        _ < 0.3 := by norm_num
        _ ≤ _ := hR
    · rw [if_neg (by omega)]
      have hfreqpos : 0 < min 1 (log1p (n : ℝ) / log1p 20) := by
        refine lt_min (by norm_num) (div_pos ?_ log1p_20_pos)
        unfold log1p
        apply Real.log_pos
        have hc : (1 : ℝ) ≤ (n : ℝ) := by exact_mod_cast hn
        linarith
      set raw := 0.35 * min 1 (log1p (n : ℝ) / log1p 20) +
        0.25 * min 1 (log1p a / log1p 50000) + 0.40 * min 1 (d / 90) with hraw
      have hrawpos : 0 < raw := by
        rw [hraw]
        nlinarith
      have hrawle : raw ≤ 1 := by
        rw [hraw]
        linarith
      have hRv : min (1:ℝ) (max 0 (max 0 raw)) = raw := by
        rw [← max_assoc, max_self, max_eq_right hrawpos.le, min_eq_right hrawle]
      rw [hRv]
      refine lt_of_le_of_lt (min_le_right _ _) (max_lt hrawpos ?_)
      apply max_lt hrawpos
      linarith

/-- Witness for C8 at concrete inputs: monotonicity instances and the strict
drop at the first fraud flag. -/
theorem C8_trust_monotonicity_witness :
    compute_trust_score 2 5 3 1 ≤ compute_trust_score 2 7 3 1 ∧
    compute_trust_score 1 5 3 1 ≤ compute_trust_score 4 5 3 1 ∧
    compute_trust_score 2 5 3 2 ≤ compute_trust_score 2 5 3 1 ∧
    compute_trust_score 2 5 3 1 < compute_trust_score 2 5 3 0 :=
  ⟨C8_trust_monotonicity.1 2 5 7 3 1 (by norm_num) (by norm_num),
   C8_trust_monotonicity.2.1 1 4 5 3 1 (by norm_num) (by norm_num),
   C8_trust_monotonicity.2.2.1 2 5 3 1 2 (by norm_num),
   C8_trust_monotonicity.2.2.2 2 5 3 (by norm_num) (by norm_num)⟩

lemma countP_replicate {α : Type} (p : α → Bool) (x : α) (n : ℕ) :
    (List.replicate n x).countP p = if p x then n else 0 := by
  induction n with
  | zero => simp
  | succ n ih =>
      by_cases h : p x <;> simp [List.replicate_succ, List.countP_cons, ih, h]

lemma histE : histogram cexEvals cexEdges =
    [1000000/1000001, 1/1000001, 0, 0, 0, 0, 0, 0, 0, 0] := by
  have hcounts : (List.range (cexEdges.length - 1)).map
      (fun i => cexEvals.countP fun v => firstBin cexEdges v == i) =
      [1000000, 1, 0, 0, 0, 0, 0, 0, 0, 0] := by
    have hrange : List.range (cexEdges.length - 1) = [0,1,2,3,4,5,6,7,8,9] := rfl
    rw [hrange]
    simp only [List.map_cons, List.map_nil]
    unfold cexEvals
    simp only [List.countP_append, countP_replicate]
    norm_num [List.countP_cons, show firstBin cexEdges 0 = 0 from rfl,
      show firstBin cexEdges 1 = 1 from rfl]
  unfold histogram
  dsimp only
  rw [hcounts]
  norm_num

lemma histA : histogram cexAvals cexEdges =
    [1000000/1000001, 0, 1/1000001, 0, 0, 0, 0, 0, 0, 0] := by
  have hcounts : (List.range (cexEdges.length - 1)).map
      (fun i => cexAvals.countP fun v => firstBin cexEdges v == i) =
      [1000000, 0, 1, 0, 0, 0, 0, 0, 0, 0] := by
    have hrange : List.range (cexEdges.length - 1) = [0,1,2,3,4,5,6,7,8,9] := rfl
    rw [hrange]
    simp only [List.map_cons, List.map_nil]
    unfold cexAvals
    simp only [List.countP_append, countP_replicate]
    norm_num [List.countP_cons, show firstBin cexEdges 0 = 0 from rfl,
      show firstBin cexEdges 2 = 2 from rfl]
  unfold histogram
  dsimp only
  rw [hcounts]
  norm_num

lemma clamp_small : max (1000000/1000001 : ℚ) epsDrift = 1000000/1000001 := by
  apply max_eq_left
  unfold epsDrift
  rw [div_le_div_iff₀ (by norm_num) (by norm_num)]
  norm_num

lemma clamp_tiny : max (1/1000001 : ℚ) epsDrift = epsDrift := by
  apply max_eq_right
  unfold epsDrift
  rw [div_le_div_iff₀ (by norm_num) (by norm_num)]
  norm_num

lemma clamp_zero : max (0 : ℚ) epsDrift = epsDrift := by
  apply max_eq_right
  unfold epsDrift
  norm_num

/-- C9 counterexample: two 10-bin histograms over 1,000,001 samples that
differ in one bin each hold a proportion of 1/1000001 < ε there, so both
clamp to ε and the PSI between the two distinct histograms is exactly 0. -/
theorem C9_counterexample :
    calculatePsi (histogram cexEvals cexEdges) (histogram cexAvals cexEdges) = 0 ∧
    histogram cexEvals cexEdges ≠ histogram cexAvals cexEdges := by
  rw [histE, histA]
  constructor
  · unfold calculatePsi
    simp only [List.zip_cons_cons, List.zip_nil_right, List.map_cons, List.map_nil]
    unfold psiTerm
    rw [clamp_small, clamp_tiny, clamp_zero]
    simp
  · intro h
    have hc := congrArg (fun l => l.get? 1) h
    norm_num at hc

lemma sign_mul_log {x y : ℝ} (hx : 0 < x) (hy : 0 < y) :
    0 ≤ (y - x) * Real.log (y / x) ∧ ((y - x) * Real.log (y / x) = 0 ↔ x = y) := by
  rw [Real.log_div hy.ne' hx.ne']
  rcases lt_trichotomy x y with h | h | h
  · have hlog : Real.log x < Real.log y := Real.log_lt_log hx h
    have hpos : 0 < (y - x) * (Real.log y - Real.log x) :=
      mul_pos (by linarith) (by linarith)
    exact ⟨hpos.le, ⟨fun h0 => absurd h0 hpos.ne', fun h0 => absurd h0 h.ne⟩⟩
  · subst h
    simp
  · have hlog : Real.log y < Real.log x := Real.log_lt_log hy h
    have hpos : 0 < (y - x) * (Real.log y - Real.log x) :=
      mul_pos_of_neg_of_neg (by linarith) (by linarith)
    exact ⟨hpos.le, ⟨fun h0 => absurd h0 hpos.ne', fun h0 => absurd h0 h.ne'⟩⟩

lemma epsDrift_pos : (0:ℚ) < epsDrift := by
  unfold epsDrift
  norm_num

lemma psiTerm_nonneg_zero (e a : ℚ) :
    0 ≤ psiTerm e a ∧ (psiTerm e a = 0 ↔ max e epsDrift = max a epsDrift) := by
  unfold psiTerm
  have hx : (0:ℝ) < ((max e epsDrift : ℚ) : ℝ) := by
    have hq := epsDrift_pos.trans_le (le_max_right e epsDrift)
    exact_mod_cast hq
  have hy : (0:ℝ) < ((max a epsDrift : ℚ) : ℝ) := by
    have hq := epsDrift_pos.trans_le (le_max_right a epsDrift)
    exact_mod_cast hq
  obtain ⟨h1, h2⟩ := sign_mul_log hx hy
  push_cast at h1 h2 ⊢
  refine ⟨h1, h2.trans ?_⟩
  constructor
  · intro hc
    exact_mod_cast hc
  · intro hc
    exact_mod_cast hc

lemma mem_zip_same {α : Type} {l : List α} {p : α × α} (h : p ∈ l.zip l) : p.1 = p.2 := by
  induction l with
  | nil => simp at h
  | cons a l ih =>
      simp only [List.zip_cons_cons, List.mem_cons] at h
      rcases h with rfl | h
      · rfl
      · exact ih h

/-- C9 (amended): the PSI between any two proportion lists is non-negative,
and it is 0 iff the lists agree pointwise after clamping each proportion up
to ε = 10⁻⁶; in particular equal histograms always give PSI 0, but two
histograms may differ below ε (only possible with more than 10⁶ samples) and
still give PSI 0. -/
theorem C9_psi_properties (expected actual : List ℚ) :
    0 ≤ calculatePsi expected actual ∧
    (calculatePsi expected actual = 0 ↔
      ∀ p ∈ expected.zip actual, max p.1 epsDrift = max p.2 epsDrift) ∧
    (∀ values edges : List ℚ,
      calculatePsi (histogram values edges) (histogram values edges) = 0) := by
  have main : ∀ ex ac : List ℚ, 0 ≤ calculatePsi ex ac ∧
      (calculatePsi ex ac = 0 ↔
        ∀ p ∈ ex.zip ac, max p.1 epsDrift = max p.2 epsDrift) := by
    intro ex ac
    unfold calculatePsi
    generalize ex.zip ac = l
    induction l with
    | nil => simp
    | cons p l ih =>
        obtain ⟨hn, hiff⟩ := psiTerm_nonneg_zero p.1 p.2
        obtain ⟨ihn, ihiff⟩ := ih
        simp only [List.map_cons, List.sum_cons, List.mem_cons]
        constructor
        · linarith
        · constructor
          · intro h0
            have h1 : psiTerm p.1 p.2 = 0 := by linarith
            have h2 : (l.map fun p => psiTerm p.1 p.2).sum = 0 := by linarith
            intro q hq
            rcases hq with rfl | hq
            · exact hiff.mp h1
            · exact (ihiff.mp h2) q hq
          · intro hall
            rw [hiff.mpr (hall p (Or.inl rfl)), ihiff.mpr fun q hq => hall q (Or.inr hq)]
            norm_num
  refine ⟨(main expected actual).1, (main expected actual).2, fun values edges => ?_⟩
  exact (main _ _).2.mpr fun p hp => by rw [mem_zip_same hp]

/-- C10 counterexample: a recipient VPA with an empty local-part makes the
merchant-risk computation raise (Python IndexError at `merchant[0]`), so the
whole feature extraction fails rather than being defined. -/
theorem C10_counterexample :
    merchantRiskScore "@upi" = none ∧
    extract_features id (fun _ => 0) cexRs { cexTxIn with recipientVpa := "@upi" } = none := by
  exact ⟨rfl, rfl⟩

lemma merchantRiskScore_none_iff (vpa : String) :
    merchantRiskScore vpa = none ↔ localPart vpa = "" := by
  unfold merchantRiskScore
  rcases hd : (localPart vpa).data with _ | ⟨c, rest⟩ <;>
    simp [hd, String.ext_iff]

/-- C10 (amended): for every recipient VPA whose local-part is non-empty, the
merchant risk equals the spec's clamped sum (+0.5 digit first char, +0.3
length < 4, +0.2 only '0'/'1'); for an empty local-part the computation is
not defined — it raises, and feature extraction as a whole fails. -/
theorem C10_merchant_risk (vpa : String) :
    (localPart vpa ≠ "" → merchantRiskScore vpa = some (merchantRiskSpecFormula vpa)) ∧
    (localPart vpa = "" → merchantRiskScore vpa = none) ∧
    (∀ (L : ℚ → ℚ) (SD : List ℚ → ℚ) (rs : RedisState) (tx : TxIn),
      (extract_features L SD rs tx).isSome = true ↔ localPart tx.recipientVpa ≠ "") := by
  refine ⟨?_, ?_, ?_⟩
  · intro hne
    unfold merchantRiskScore merchantRiskSpecFormula
    rcases hd : (localPart vpa).data with _ | ⟨c, rest⟩
    · exact absurd (String.ext_iff.mpr hd) hne
    · dsimp only
      rw [hd]
      dsimp only
      have hz : (((c :: rest).filter fun ch => ch != '0').filter fun ch => ch != '1') = []
          ↔ ((c :: rest).all fun ch => ch == '0' || ch == '1') = true := by
        simp only [List.filter_filter, List.filter_eq_nil_iff, List.all_eq_true,
          Bool.and_eq_true, bne_iff_ne, ne_eq, not_and, not_not, Bool.or_eq_true,
          beq_iff_eq]
        constructor <;> intro h a ha <;> have hh := h a ha <;> tauto
      rw [if_congr hz rfl rfl]
      rfl
  · intro he
    exact (merchantRiskScore_none_iff vpa).mpr he
  · intro L SD rs tx
    unfold extract_features
    rcases hm : merchantRiskScore tx.recipientVpa with _ | mrs <;> dsimp only
    · simp [(merchantRiskScore_none_iff tx.recipientVpa).mp hm]
    · constructor
      · intro _
        intro he
        rw [(merchantRiskScore_none_iff tx.recipientVpa).mpr he] at hm
        exact Option.noConfusion hm
      · intro _
        rfl

/-- Witness for C10 at concrete VPAs: a digit-led local-part follows the spec
formula; the empty local-part fails. -/
theorem C10_merchant_risk_witness :
    merchantRiskScore "9abc@upi" = some (merchantRiskSpecFormula "9abc@upi") ∧
    merchantRiskScore "@upi" = none :=
  ⟨(C10_merchant_risk "9abc@upi").1 (by decide),
   (C10_merchant_risk "@upi").2.1 rfl⟩

end FdtUpi
